import Mathlib

/-!
Verification development for the spreadsheet evaluation core
(`cell.h`, `cell.cpp`, `sheet.h`, `sheet.cpp`, `formula.cpp`).

The source is embedded shallowly: machine doubles become an explicit
four-constructor type over `ℚ` (finite value, the two infinities, NaN);
the C++ exception control flow becomes explicit result types; the
unbounded recursions of the source (`Cell::CheckCyclicDependencies`,
`Sheet::InvalidateCell`) take an explicit fuel argument, and exhausting
the fuel models non-termination of the source.

The repository snapshot is internally inconsistent: `sheet.cpp` calls a
one-argument `Cell::Set(text)`, a `Cell*`-based `CheckCyclicDependencies`
and a `Sheet::GetConcreteCell` that are absent from the snapshot, while
`cell.cpp` defines the two-argument `Cell::Set(text, pos)` with a
cell-level dependents set.  Both compositions are modelled:

* `CellLevel`: `Cell::Set(text, pos)` / `Cell::CheckCyclicDependencies`
  exactly as in `cell.cpp`, driven by a `Sheet::SetCell` wrapper modelled
  from the spec (§4.4), which is the only wrapper compatible with the
  two-argument `Set`.
* `SheetLevel`: `Sheet::SetCell` / `Sheet::InvalidateCell` /
  `Sheet::AddDependentCell` / `Sheet::DeleteDependencies` exactly as in
  `sheet.cpp`, with the missing one-argument `Cell::Set` and the missing
  cycle check modelled from the spec (§4.2, §4.2.1).

The formula parser/evaluator (`FormulaAST`) is an external collaborator
(spec §1, §6) whose sources are not part of the snapshot; it is modelled
from the spec where needed (reference scanning).  `Formula::Evaluate`'s
lookup callback and `Cell::FormulaImpl::GetValue`, which are in the
snapshot, are embedded directly.
-/

namespace Spreadsheet

/-- Grid coordinates, as in `common.h`'s `Position` (row, col).
Modelled from the spec: `common.h` is not part of the snapshot; the spec
(§3) gives non-negative coordinates bounded by 16384 × 16384. -/
structure Position where
  row : Nat
  col : Nat
deriving DecidableEq

/-- Modelled from the spec (§4.1): both coordinates within bounds. -/
def Position.IsValid (p : Position) : Prop := p.row < 16384 ∧ p.col < 16384

instance (p : Position) : Decidable p.IsValid := by
  unfold Position.IsValid; infer_instance

/-- FORMULA_SIGN from `common.h` (spec §6). -/
def formulaSign : Char := '='

/-- ESCAPE_SIGN from `common.h` (spec §6): the apostrophe. -/
def escapeSign : Char := Char.ofNat 39

/-- The categories of `FormulaError` (spec §7). -/
inductive FECat
  | Ref
  | Value
  | Arithmetic
deriving DecidableEq

/-- A machine double, abstracted: a finite rational, one of the two
infinities, or NaN.  The claims under study depend only on finiteness
and on exact decimal values, never on rounding. -/
inductive Dbl
  | fin (q : ℚ)
  | posInf
  | negInf
  | nan
deriving DecidableEq

/-- Models `std::isfinite`. -/
def Dbl.isFinite : Dbl → Bool
  | .fin _ => true
  | _ => false

/-- `CellInterface::Value`: `std::variant<std::string, double, FormulaError>`. -/
inductive CellValue
  | str (s : String)
  | num (d : Dbl)
  | err (e : FECat)
deriving DecidableEq

/-- `FormulaInterface::Value`: `std::variant<double, FormulaError>`. -/
inductive FVal
  | num (d : Dbl)
  | err (e : FECat)
deriving DecidableEq

/-! ### The formula collaborator

`ParseFormula` / `FormulaAST` are external to the snapshot (spec §1, §6).
The model stores the expression string in canonical form and scans it
for cell references; `Formula::GetReferencedCells` (formula.cpp) then
sorts and deduplicates the scanned list through a `std::set<Position>`. -/

/-- Column index of a column-letter run, base-26 bijective, `A` = 0. -/
def colVal (ls : List Char) : Nat :=
  (ls.foldl (fun a c => a * 26 + (c.toNat - 64)) 0) - 1

/-- Numeric value of a digit run. -/
def digitsVal (ds : List Char) : Nat :=
  ds.foldl (fun a c => a * 10 + (c.toNat - 48)) 0

/-- State of the reference scanner: pending letter run, pending digit
run, references emitted so far. -/
structure ScanSt where
  letters : List Char
  digits : List Char
  out : List Position

/-- Emit a completed `LETTERS DIGITS` token as a reference (1-based row). -/
def flushRef (st : ScanSt) : List Position :=
  if st.letters ≠ [] ∧ st.digits ≠ [] ∧ 1 ≤ digitsVal st.digits then
    st.out ++ [⟨digitsVal st.digits - 1, colVal st.letters⟩]
  else st.out

/-- One scanner step.  Modelled from the spec (§6): cell references are
maximal `[A-Z]+[0-9]+` tokens of the expression. -/
def scanChar (st : ScanSt) (c : Char) : ScanSt :=
  if c.isUpper then
    if st.digits = [] then { st with letters := st.letters ++ [c] }
    else { letters := [c], digits := [], out := flushRef st }
  else if c.isDigit then
    if st.letters = [] then { st with digits := [] }
    else { st with digits := st.digits ++ [c] }
  else { letters := [], digits := [], out := flushRef st }

/-- All cell references mentioned by an expression, in textual order. -/
def refsRaw (s : String) : List Position :=
  flushRef (s.toList.foldl scanChar ⟨[], [], []⟩)

/-- Ordered insertion without duplicates, row-major — the iteration
order of a `std::set<Position>` (spec §4.1: structural order). -/
def insertPos (p : Position) : List Position → List Position
  | [] => [p]
  | q :: qs =>
    if p = q then q :: qs
    else if p.row < q.row ∨ (p.row = q.row ∧ p.col < q.col) then p :: q :: qs
    else q :: insertPos p qs

/-- Sorted, deduplicated reference list (`Formula::GetReferencedCells`). -/
def sortedDedup (l : List Position) : List Position := l.foldr insertPos []

/-- `Formula::GetReferencedCells` for a stored expression. -/
def refsOf (s : String) : List Position := sortedDedup (refsRaw s)

/-! ### Cell bodies (`Cell::Impl` and its three subclasses, cell.cpp) -/

/-- The tagged body held by a cell: `EmptyImpl`, `TextImpl` (with its
`is_escaped_` flag) or `FormulaImpl` (with its stored canonical
expression and its `cache_` field). -/
inductive Body
  | empty
  | text (value : String) (isEscaped : Bool)
  | formula (src : String) (cache : Option CellValue)
deriving DecidableEq

/-- `TextImpl::TextImpl` (cell.cpp 47-52): stores the string and sets
`is_escaped_` from its first character. -/
def mkTextImpl (s : String) : Body := .text s (decide (s.front = escapeSign))

/-- Body construction of `Cell::Set` (cell.cpp 130-146): empty text gives
`EmptyImpl`; text not starting with `=`, or a lone `=`, gives `TextImpl`;
otherwise the remainder is parsed as a formula.  The collaborator parser
is modelled as total on the canonical expressions used here. -/
def parseBody (t : String) : Body :=
  if t = "" then .empty
  else if t.front ≠ formulaSign ∨ t.length = 1 then mkTextImpl t
  else .formula (t.drop 1) none

/-- `Cell::GetText` through the three bodies (cell.cpp 35-37, 63-65,
99-101): empty string, the stored raw string, or `=` + expression. -/
def bodyText : Body → String
  | .empty => ""
  | .text s _ => s
  | .formula src _ => "=" ++ src

/-- `Cell::GetReferencedCells` through the three bodies (cell.cpp 39-41,
67-69, 103-105). -/
def bodyRefs : Body → List Position
  | .empty => []
  | .text _ _ => []
  | .formula src _ => refsOf src

/-- `GetValue` of the non-formula bodies (`EmptyImpl::GetValue`,
`TextImpl::GetValue`, cell.cpp 31-33, 54-61). -/
def bodyPlainValue : Body → Option CellValue
  | .empty => some (.num (.fin 0))
  | .text s esc => some (.str (if esc then s.drop 1 else s))
  | .formula _ _ => none

/-- `Impl::InvalidateCache` (cell.cpp 18-20, 107-109): drops the memo of
a formula body, leaves the other bodies unchanged. -/
def invalidateBody : Body → Body
  | .formula src _ => .formula src none
  | b => b

/-! ### `Cell::FormulaImpl::GetValue` (cell.cpp 83-97), standalone

The function receives the current `cache_` and the result the executor
would produce, and returns the value handed to the caller together with
the `cache_` field after the call.  The source contains no assignment to
`cache_` on any path, so the returned cache is the incoming one. -/

/-- `FormulaImpl::GetValue`: with a memo present return it; otherwise
classify the evaluation result — a finite number is returned as is, a
non-finite number becomes `FormulaError(Arithmetic)`, an error is
propagated.  No branch writes the cache. -/
def formulaImplGetValue (cache : Option CellValue) (result : FVal) :
    CellValue × Option CellValue :=
  match cache with
  | some v => (v, cache)
  | none =>
    match result with
    | .num d => if d.isFinite then (.num d, none) else (.err .Arithmetic, none)
    | .err e => (.err e, none)

/-! ### The lookup callback of `Formula::Evaluate` (formula.cpp 30-68) -/

/-- The character class accepted by the callback's string branch:
`std::isdigit(ch) || ch == '.'`. -/
def isDigitDot (c : Char) : Bool := c.isDigit || c = '.'

/-- `std::stod` restricted to strings whose characters are digits and
dots (the only strings the callback hands it): parse leading digits, an
optional dot and further digits, stopping at a second dot; fail when the
parsed span contains no digit. -/
def stodDigitDot (s : String) : Option ℚ :=
  let cs := s.toList
  let ip := cs.takeWhile Char.isDigit
  let rest := cs.drop ip.length
  match rest with
  | '.' :: rest2 =>
    let fp := rest2.takeWhile Char.isDigit
    if ip = [] ∧ fp = [] then none
    else some ((digitsVal ip : ℚ) + (digitsVal fp : ℚ) / ((10 : ℚ) ^ fp.length))
  | _ => if ip = [] then none else some (digitsVal ip)

/-- The largest finite `double`, `DBL_MAX` = (2^53 − 1)·2^971.
`std::stod` raises `std::out_of_range` when the converted value falls
out of the range of `double`; with doubles embedded as exact rationals
this is modelled as the parsed value exceeding this bound. -/
def maxDouble : ℚ := ((2 ^ 53 - 1) * 2 ^ 971 : ℕ)

deriving instance DecidableEq for Except

/-- The lookup lambda of `Formula::Evaluate` (formula.cpp 30-68), as a
function of the referenced cell's value (`none` = absent cell): absent
yields 0.0; a number yields itself; a string of digits and dots is handed
to `stod`, whose failures — `invalid_argument` when no numeric prefix
exists, `out_of_range` when the parsed value falls out of `double` range
— the surrounding `catch (...)` turns into `FormulaError(Value)`; any
other string yields `FormulaError(Value)`; a stored `FormulaError` is
rethrown. -/
def evaluateLookup (cellVal : Option CellValue) : Except FECat Dbl :=
  match cellVal with
  | none => .ok (.fin 0)
  | some (.num d) => .ok d
  | some (.str s) =>
    if s.toList.all isDigitDot then
      match stodDigitDot s with
      | some q => if q ≤ maxDouble then .ok (.fin q) else .error .Value
      | none => .error .Value
    else .error .Value
  | some (.err e) => .error e

/-! ### Generic grid plumbing

The sheet storage is `std::vector<std::vector<std::unique_ptr<Cell>>>`,
embedded as a list of rows of optional cells. -/

/-- In-place update of the `n`-th entry of a list; out-of-range indices
leave the list unchanged. -/
def listModify (f : α → α) : Nat → List α → List α
  | _, [] => []
  | 0, x :: xs => f x :: xs
  | n + 1, x :: xs => x :: listModify f n xs

/-- `std::vector::resize` upward: pad with `x` to length at least `n`. -/
def padTo (l : List α) (n : Nat) (x : α) : List α :=
  l ++ List.replicate (n - l.length) x

/-- The slot at `p`, if `p` is within the allocated extent. -/
def gridGet (g : List (List (Option α))) (p : Position) : Option (Option α) :=
  (g[p.row]?).bind fun r => r[p.col]?

/-- The storage growth of `Sheet::SetCell` (sheet.cpp 16-23): resize the
row vector to cover `p.row`, then resize that row to cover `p.col`. -/
def growGrid (g : List (List (Option α))) (p : Position) :
    List (List (Option α)) :=
  listModify (fun r => padTo r (p.col + 1) none) p.row (padTo g (p.row + 1) [])

/-- Overwrite the slot at `p` (no effect outside the allocated extent). -/
def writeSlotG (g : List (List (Option α))) (p : Position) (c : Option α) :
    List (List (Option α)) :=
  listModify (fun r => listModify (fun _ => c) p.col r) p.row g

/-- Update the cell at `p` through `f` when one is present. -/
def writeCellG (g : List (List (Option α))) (p : Position) (f : α → α) :
    List (List (Option α)) :=
  listModify (fun r => listModify (fun oc => oc.map f) p.col r) p.row g

/-- The two error exceptions of the edit path: `InvalidPositionException`
and `CircularDependencyException`. -/
inductive ErrK
  | invalidPos
  | circular
deriving DecidableEq

namespace CellLevel

/-! ### The cell-level composition

`Cell::Set(text, pos)` and `Cell::CheckCyclicDependencies` exactly as in
cell.cpp, under the `Sheet::SetCell` wrapper the spec describes (§4.4),
which is the wrapper compatible with the two-argument `Set`.  A cell is
its body plus its `dependent_cells_` set; since every stored cell lives
at exactly one grid position, pointer identity is embedded as position
identity.  The one idealization: `dependent_cells_.erase` is taken to
find its element, although the real container hashes elements by their
current `GetText()` and the probe can miss after a text change —
`HashLevel` below models that probing behaviour; bodies, reference
lists and hence the claims that only concern them are identical in the
two models. -/

/-- A `Cell` (cell.h 11-55): the polymorphic body and the
`dependent_cells_` set. -/
structure Cell where
  body : Body
  dependents : List Position
deriving DecidableEq

/-- A freshly constructed cell (cell.cpp 119-122): `EmptyImpl`, no
dependents. -/
def emptyCell : Cell := ⟨Body.empty, []⟩

/-- The sheet storage (sheet.h 30). -/
structure Sheet where
  grid : List (List (Option Cell))
deriving DecidableEq

/-- The slot at `p`, when `p` lies inside the allocated extent. -/
def slotAt (S : Sheet) (p : Position) : Option (Option Cell) :=
  gridGet S.grid p

/-- The cell at `p`, or absent (`Sheet::GetConcreteCell`; modelled from
the spec (§4.4): the handle at `pos` or absent, never materializing —
its definition is missing from sheet.cpp). -/
def cellAt (S : Sheet) (p : Position) : Option Cell := (slotAt S p).join

/-- Storage growth (sheet.cpp 16-23). -/
def grow (S : Sheet) (p : Position) : Sheet := ⟨growGrid S.grid p⟩

/-- Overwrite a slot. -/
def writeSlot (S : Sheet) (p : Position) (c : Option Cell) : Sheet :=
  ⟨writeSlotG S.grid p c⟩

/-- Update the cell at `p` through `f` when one is present. -/
def writeCell (S : Sheet) (p : Position) (f : Cell → Cell) : Sheet :=
  ⟨writeCellG S.grid p f⟩

/-- The net effect of `sheet_.SetCell(pos, "")` on an absent position
(cell.cpp 168, 208): grow the storage and place a fresh empty cell. -/
def materialize (S : Sheet) (p : Position) : Sheet :=
  writeSlot (grow S p) p (some emptyCell)

/-- The element loop of `Cell::CheckCyclicDependencies` (cell.cpp
202-217), parameterized by the descent into a reference's own references:
a reference equal to the forbidden target, or resolving to the calling
cell itself, is a cycle; an absent reference is materialized as empty
before descending. -/
def checkGo (descend : Sheet → Position → Position → Option Bool × Sheet) :
    Sheet → Option Position → List Position → Position → Option Bool × Sheet
  | S, _, [], _ => (some false, S)
  | S, self, r :: rs, tgt =>
    if r = tgt then (some true, S)
    else
      let S₁ := if cellAt S r = none then materialize S r else S
      if self = some r then (some true, S₁)
      else
        match descend S₁ r tgt with
        | (some true, S₂) => (some true, S₂)
        | (some false, S₂) => checkGo descend S₂ self rs tgt
        | (none, S₂) => (none, S₂)

/-- One level of recursive descent (cell.cpp 214): check the referenced
cell's own references, with that cell as the new `this`.  The fuel bounds
the recursion depth; the source recursion is unbounded, and `none`
models its non-termination. -/
def checkDepth : Nat → Sheet → Position → Position → Option Bool × Sheet
  | 0, S, _, _ => (none, S)
  | fuel + 1, S, r, tgt =>
    checkGo (checkDepth fuel) S (some r)
      (bodyRefs ((cellAt S r).getD emptyCell).body) tgt

/-- `Cell::CheckCyclicDependencies` (cell.cpp 201-219).  `self` is the
position of the calling cell when it is stored in the grid, `none` for a
detached cell under construction. -/
def CheckCyclicDependencies (fuel : Nat) (S : Sheet) (self : Option Position)
    (cur : List Position) (tgt : Position) : Option Bool × Sheet :=
  checkGo (checkDepth fuel) S self cur tgt

/-- Removing one dependent (cell.cpp 160: `dependent_cells_.erase(this)`),
idealized as always finding the record; the hashed container actually
probes by the erased cell's current text and misses after a text change
— see `HashLevel.eraseDepStep` for the probing model. -/
def eraseDepStep (p : Position) (c : Cell) : Cell :=
  { c with dependents := c.dependents.filter (fun d => decide (d ≠ p)) }

/-- `Cell::AddDependentCell` (cell.cpp 198-200): set insertion. -/
def insDepStep (p : Position) (c : Cell) : Cell :=
  { c with dependents := if p ∈ c.dependents then c.dependents else p :: c.dependents }

/-- `Cell::InvalidateCache` (cell.cpp 248-250). -/
def invalStep (c : Cell) : Cell := { c with body := invalidateBody c.body }

/-- The old-references loop of `Cell::Set` (cell.cpp 157-161): erase the
edited cell from each previously referenced cell's dependents. -/
def eraseDeps (S : Sheet) (l : List Position) (p : Position) : Sheet :=
  l.foldl (fun Sa r => writeCell Sa r (eraseDepStep p)) S

/-- The new-references loop of `Cell::Set` (cell.cpp 162-172): for each
referenced position, materialize it when absent, then register the
edited cell as a dependent. -/
def addDeps (S : Sheet) (l : List Position) (p : Position) : Sheet :=
  l.foldl (fun Sa r =>
    writeCell (if cellAt Sa r = none then materialize Sa r else Sa) r
      (insDepStep p)) S

/-- The invalidation loop of `Cell::Set` (cell.cpp 173-176): drop the
memo of each direct dependent. -/
def invalDeps (S : Sheet) (l : List Position) : Sheet :=
  l.foldl (fun Sa d => writeCell Sa d invalStep) S

/-- The outcome of an edit: success, a thrown exception (with the sheet
as left behind by the throw), or exhausted fuel (modelling divergence of
the source's unbounded recursion). -/
inductive SetOut
  | ok (S : Sheet)
  | exc (e : ErrK) (S : Sheet)
  | fuelOut
deriving DecidableEq

/-- `Sheet::SetCell` delegating to `Cell::Set(text, pos)` (cell.cpp
130-177).  The wrapper (validation, growth, the `GetText() == text`
no-op, construct-or-reuse, store-on-success) is modelled from the spec
(§4.4); body construction, the cycle check and the three rewiring loops
are cell.cpp 130-177 verbatim. -/
def SetCell (fuel : Nat) (S : Sheet) (p : Position) (t : String) : SetOut :=
  if ¬ p.IsValid then .exc .invalidPos S
  else
    let S₀ := grow S p
    match cellAt S₀ p with
    | some c =>
      if bodyText c.body = t then .ok S₀
      else
        let newBody := parseBody t
        let newRefs := bodyRefs newBody
        match (if newRefs.isEmpty then (some false, S₀)
               else CheckCyclicDependencies fuel S₀ (some p) newRefs p) with
        | (none, _) => .fuelOut
        | (some true, S₁) => .exc .circular S₁
        | (some false, S₁) =>
          let oldRefs := bodyRefs ((cellAt S₁ p).getD emptyCell).body
          let S₂ := writeCell S₁ p (fun c => { c with body := newBody })
          let S₃ := eraseDeps S₂ oldRefs p
          let S₄ := addDeps S₃ newRefs p
          .ok (invalDeps S₄ ((cellAt S₄ p).getD emptyCell).dependents)
    | none =>
      let newBody := parseBody t
      let newRefs := bodyRefs newBody
      match (if newRefs.isEmpty then (some false, S₀)
             else CheckCyclicDependencies fuel S₀ none newRefs p) with
      | (none, _) => .fuelOut
      | (some true, S₁) => .exc .circular S₁
      | (some false, S₁) =>
        .ok (writeSlot (addDeps S₁ newRefs p) p (some ⟨newBody, []⟩))

/-- `Sheet::ClearCell` (sheet.cpp 80-87): validate, and reset the slot
when it is inside the allocated extent. -/
def ClearCell (S : Sheet) (p : Position) : Except ErrK Sheet :=
  if ¬ p.IsValid then .error .invalidPos
  else if (slotAt S p).isSome then .ok (writeSlot S p none) else .ok S

/-- `Sheet::GetCell` (const, sheet.cpp 54-65): validate, and return the
handle or absent together with the (unchanged) sheet. -/
def GetCell (S : Sheet) (p : Position) : Except ErrK (Option Cell × Sheet) :=
  if ¬ p.IsValid then .error .invalidPos else .ok (cellAt S p, S)

/-- Whether a slot contributes to the printable rectangle (sheet.cpp
93-94): non-null and with non-empty text. -/
def slotShown : Option Cell → Bool
  | none => false
  | some c => decide (bodyText c.body ≠ "")

/-- The inner loop of `Sheet::GetPrintableSize` (sheet.cpp 92-99): the
index of the last shown slot of a row, scanned from the high end. -/
def lastShownCol : List (Option Cell) → Option Nat
  | [] => none
  | o :: rest =>
    match lastShownCol rest with
    | some k => some (k + 1)
    | none => if slotShown o then some 0 else none

/-- The row loop of `Sheet::GetPrintableSize` (sheet.cpp 91-101). -/
def psAux : List (List (Option Cell)) → Nat → Nat × Nat → Nat × Nat
  | [], _, acc => acc
  | r :: rs, i, (mr, mc) =>
    psAux rs (i + 1)
      (match lastShownCol r with
       | some c => (max mr (i + 1), max mc (c + 1))
       | none => (mr, mc))

/-- `Sheet::GetPrintableSize` (sheet.cpp 89-103), as (rows, cols). -/
def GetPrintableSize (S : Sheet) : Nat × Nat := psAux S.grid 0 (0, 0)

/-! ### The dependency graph and its invariants (spec §3) -/

/-- The reference edge relation: `a` holds a cell whose body references
`b`. -/
def edge (S : Sheet) (a b : Position) : Prop :=
  ∃ c, cellAt S a = some c ∧ b ∈ bodyRefs c.body

/-- Reachability along reference edges. -/
def Reaches (S : Sheet) : Position → Position → Prop :=
  Relation.ReflTransGen (edge S)

/-- Acyclicity of the reference graph (spec §3, invariant 1). -/
def Acyclic (S : Sheet) : Prop := ∀ p, ¬ Relation.TransGen (edge S) p p

/-- Mutual consistency of references and dependents (spec §3,
invariants 2 and 3). -/
def LinkOK (S : Sheet) : Prop :=
  (∀ a c, cellAt S a = some c → ∀ b ∈ bodyRefs c.body,
    ∃ c', cellAt S b = some c' ∧ a ∈ c'.dependents) ∧
  (∀ b c', cellAt S b = some c' → ∀ a ∈ c'.dependents,
    ∃ c, cellAt S a = some c ∧ b ∈ bodyRefs c.body)

/-- Sheets reachable from a fresh sheet through completed public
operations (an edit rejected by the cycle check also completes, by
raising, and leaves the sheet it mutated). -/
inductive Reach : Sheet → Prop
  | init : Reach ⟨[]⟩
  | set {S S' : Sheet} {p : Position} {t : String} {fuel : Nat} :
      Reach S → SetCell fuel S p t = .ok S' → Reach S'
  | setCyc {S S' : Sheet} {p : Position} {t : String} {fuel : Nat} :
      Reach S → SetCell fuel S p t = .exc .circular S' → Reach S'
  | clear {S S' : Sheet} {p : Position} :
      Reach S → ClearCell S p = .ok S' → Reach S'

/-- Sheets reachable through `SetCell` alone (no `ClearCell`). -/
inductive ReachSet : Sheet → Prop
  | init : ReachSet ⟨[]⟩
  | set {S S' : Sheet} {p : Position} {t : String} {fuel : Nat} :
      ReachSet S → SetCell fuel S p t = .ok S' → ReachSet S'
  | setCyc {S S' : Sheet} {p : Position} {t : String} {fuel : Nat} :
      ReachSet S → SetCell fuel S p t = .exc .circular S' → ReachSet S'

end CellLevel

namespace SheetLevel

/-! ### The sheet-level composition

`Sheet::SetCell`, `Sheet::InvalidateCell`, `Sheet::AddDependentCell`,
`Sheet::GetDependentCells`, `Sheet::DeleteDependencies` and
`Sheet::ClearCell` exactly as in sheet.cpp.  The one-argument
`Cell::Set(text)` and the `Cell*`-based cycle check that sheet.cpp calls
are absent from the snapshot; they are modelled from the spec: `Set`
constructs the body per §4.2 (the sheet-level code performs the graph
rewiring and invalidation itself), and the cycle check is the
depth-first traversal of §4.2.1 with a visited set, materializing absent
referenced cells as empty. -/

/-- A cell as the sheet-level composition uses it: just the body (the
dependency record lives in the sheet's `cells_dependencies_` map). -/
structure Cell where
  body : Body
deriving DecidableEq

/-- The sheet: the grid (sheet.h 30) plus the `cells_dependencies_` map
from a position to the set of positions that reference it. -/
structure Sheet where
  grid : List (List (Option Cell))
  deps : List (Position × List Position)
deriving DecidableEq

/-- The cell at `p`, or absent. -/
def cellAt (S : Sheet) (p : Position) : Option Cell := (gridGet S.grid p).join

/-- `Sheet::GetDependentCells` (sheet.cpp 160-165). -/
def depsGet : List (Position × List Position) → Position → List Position
  | [], _ => []
  | (q, l) :: rest, p => if q = p then l else depsGet rest p

/-- `Sheet::AddDependentCell` (sheet.cpp 156-158):
`cells_dependencies_[main].insert(dep)`. -/
def depsAdd (m : List (Position × List Position)) (mainC dep : Position) :
    List (Position × List Position) :=
  match m with
  | [] => [(mainC, [dep])]
  | (q, l) :: rest =>
    if q = mainC then (q, if dep ∈ l then l else l ++ [dep]) :: rest
    else (q, l) :: depsAdd rest mainC dep

/-- `Sheet::DeleteDependencies` (sheet.cpp 167-169):
`cells_dependencies_.erase(pos)`. -/
def depsErase (m : List (Position × List Position)) (p : Position) :
    List (Position × List Position) :=
  m.filter (fun e => decide (e.1 ≠ p))

/-- Storage growth (sheet.cpp 16-23). -/
def grow (S : Sheet) (p : Position) : Sheet := { S with grid := growGrid S.grid p }

/-- Overwrite a slot. -/
def writeSlot (S : Sheet) (p : Position) (c : Option Cell) : Sheet :=
  { S with grid := writeSlotG S.grid p c }

/-- Replace the body of the cell at `p` (the modelled one-argument
`Cell::Set` body swap, and `Cell::Clear`). -/
def writeBody (S : Sheet) (p : Position) (b : Body) : Sheet :=
  { S with grid := writeCellG S.grid p (fun _ => ⟨b⟩) }

/-- Invalidating one cell's memo (`Cell::InvalidateCache` through
`GetCell`, sheet.cpp 150-151); a null handle is skipped. -/
def invalCacheAt (S : Sheet) (p : Position) : Sheet :=
  { S with grid := writeCellG S.grid p (fun c => ⟨invalidateBody c.body⟩) }

/-- Materializing an absent referenced position as an empty cell
(modelled from the spec, §4.2.1). -/
def materialize (S : Sheet) (p : Position) : Sheet :=
  writeSlot (grow S p) p (some ⟨Body.empty⟩)

/-- The dependents loop of `Sheet::InvalidateCell` (sheet.cpp 148-154):
for each recorded dependent, drop its memo, then recurse. -/
def invGo (rec : Sheet → Position → Option Sheet) :
    Sheet → List Position → Option Sheet
  | S, [] => some S
  | S, d :: ds =>
    match rec (invalCacheAt S d) d with
    | none => none
    | some S₂ => invGo rec S₂ ds

/-- `Sheet::InvalidateCell`, fuel-bounded: the source recursion is
unbounded and `none` models its non-termination. -/
def invDepth : Nat → Sheet → Position → Option Sheet
  | 0, _, _ => none
  | fuel + 1, S, p => invGo (invDepth fuel) S (depsGet S.deps p)

/-- The element loop of the modelled cycle check (spec §4.2.1): a
reference equal to the forbidden position is a cycle; already-visited
references are skipped; absent references are materialized as empty
before the descent. -/
def chkGo (descend : Sheet → Position → Position → List Position →
    Option Bool × Sheet × List Position) :
    Sheet → List Position → Position → List Position →
    Option Bool × Sheet × List Position
  | S, [], _, vis => (some false, S, vis)
  | S, r :: rs, tgt, vis =>
    if r = tgt then (some true, S, vis)
    else if r ∈ vis then chkGo descend S rs tgt vis
    else
      let S₁ := if cellAt S r = none then materialize S r else S
      match descend S₁ r tgt (r :: vis) with
      | (some true, S₂, v₂) => (some true, S₂, v₂)
      | (some false, S₂, v₂) => chkGo descend S₂ rs tgt v₂
      | (none, S₂, v₂) => (none, S₂, v₂)

/-- One level of descent of the modelled cycle check. -/
def chkDepth : Nat → Sheet → Position → Position → List Position →
    Option Bool × Sheet × List Position
  | 0, S, _, _, v => (none, S, v)
  | fuel + 1, S, r, tgt, v =>
    chkGo (chkDepth fuel) S (bodyRefs ((cellAt S r).getD ⟨Body.empty⟩).body) tgt v

/-- The cycle check sheet.cpp calls at lines 32 and 44 (modelled from
the spec, §4.2.1): traverse from the edited cell's references against
the forbidden position `tgt`. -/
def checkCyc (fuel : Nat) (S : Sheet) (refs : List Position) (tgt : Position) :
    Option Bool × Sheet :=
  match chkGo (chkDepth fuel) S refs tgt [] with
  | (b, S', _) => (b, S')

/-- The outcome of `Sheet::SetCell`. -/
inductive SetOut
  | ok (S : Sheet)
  | exc (e : ErrK) (S : Sheet)
  | fuelOut
deriving DecidableEq

/-- `Sheet::SetCell` (sheet.cpp 12-52): validate; grow; on an existing
cell capture the old text, invalidate dependents recursively, erase the
cell's recorded dependents, clear and re-set the body, run the cycle
check (restoring the old text and throwing when it fails), and record
the new reference edges; on an absent position build a detached cell,
check, record edges and store.  The body swaps are the modelled
one-argument `Cell::Set`. -/
def SetCell (fuel : Nat) (S : Sheet) (p : Position) (t : String) : SetOut :=
  if ¬ p.IsValid then .exc .invalidPos S
  else
    let S₀ := grow S p
    match cellAt S₀ p with
    | some c =>
      let oldText := bodyText c.body
      match invDepth fuel S₀ p with
      | none => .fuelOut
      | some S₁ =>
        let S₂ := { S₁ with deps := depsErase S₁.deps p }
        let newBody := parseBody t
        let S₃ := writeBody (writeBody S₂ p Body.empty) p newBody
        match checkCyc fuel S₃ (bodyRefs newBody) p with
        | (none, _) => .fuelOut
        | (some true, S₄) => .exc .circular (writeBody S₄ p (parseBody oldText))
        | (some false, S₄) =>
          .ok ((bodyRefs newBody).foldl
            (fun Sa r => { Sa with deps := depsAdd Sa.deps r p }) S₄)
    | none =>
      let newBody := parseBody t
      match checkCyc fuel S₀ (bodyRefs newBody) p with
      | (none, _) => .fuelOut
      | (some true, S₁) => .exc .circular S₁
      | (some false, S₁) =>
        let S₂ := (bodyRefs newBody).foldl
          (fun Sa r => { Sa with deps := depsAdd Sa.deps r p }) S₁
        .ok (writeSlot S₂ p (some ⟨newBody⟩))

/-- `Sheet::ClearCell` (sheet.cpp 80-87): the dependency map is not
touched. -/
def ClearCell (S : Sheet) (p : Position) : Except ErrK Sheet :=
  if ¬ p.IsValid then .error .invalidPos
  else if (gridGet S.grid p).isSome then .ok (writeSlot S p none) else .ok S

end SheetLevel

namespace HashLevel

/-! ### The cell-level composition with the hashed dependents container

`dependent_cells_` is `std::unordered_set<Cell*, Cell::PositionHasher>`
(cell.h 52), and `PositionHasher` hashes a cell by its *current*
`GetText()` (cell.h 26-37) while elements are compared by pointer.  An
element therefore sits in the bucket selected by the text its owner had
when it was inserted, and a later `erase(this)` or `insert(this)` probes
the bucket of the owner's current text: when the two texts differ the
probe misses the stored element.  A dependent record is embedded as the
dependent's position paired with the text it had at insertion time;
erasure and duplicate detection find a record exactly when its stored
text equals the probing cell's current text, idealizing `std::hash` as
collision-free on distinct strings (with hash-mutated elements the
container's behaviour is formally undefined; this is its bucket-probing
behaviour without rehashing).  Bodies, the cycle check and the loop
order are cell.cpp 130-177 as in `CellLevel`. -/

structure Cell where
  body : Body
  dependents : List (Position × String)
deriving DecidableEq

/-- A freshly constructed cell (cell.cpp 119-122). -/
def emptyCell : Cell := ⟨Body.empty, []⟩

/-- The sheet storage (sheet.h 30). -/
structure Sheet where
  grid : List (List (Option Cell))
deriving DecidableEq

/-- The cell at `p`, or absent. -/
def cellAt (S : Sheet) (p : Position) : Option Cell := (gridGet S.grid p).join

/-- Storage growth (sheet.cpp 16-23). -/
def grow (S : Sheet) (p : Position) : Sheet := ⟨growGrid S.grid p⟩

/-- Overwrite a slot. -/
def writeSlot (S : Sheet) (p : Position) (c : Option Cell) : Sheet :=
  ⟨writeSlotG S.grid p c⟩

/-- Update the cell at `p` through `f` when one is present. -/
def writeCell (S : Sheet) (p : Position) (f : Cell → Cell) : Sheet :=
  ⟨writeCellG S.grid p f⟩

/-- The net effect of `sheet_.SetCell(pos, "")` on an absent position
(cell.cpp 168, 208). -/
def materialize (S : Sheet) (p : Position) : Sheet :=
  writeSlot (grow S p) p (some emptyCell)

/-- The element loop of `Cell::CheckCyclicDependencies` (cell.cpp
202-217), exactly as in `CellLevel`. -/
def checkGo (descend : Sheet → Position → Position → Option Bool × Sheet) :
    Sheet → Option Position → List Position → Position → Option Bool × Sheet
  | S, _, [], _ => (some false, S)
  | S, self, r :: rs, tgt =>
    if r = tgt then (some true, S)
    else
      let S₁ := if cellAt S r = none then materialize S r else S
      if self = some r then (some true, S₁)
      else
        match descend S₁ r tgt with
        | (some true, S₂) => (some true, S₂)
        | (some false, S₂) => checkGo descend S₂ self rs tgt
        | (none, S₂) => (none, S₂)

/-- One level of recursive descent (cell.cpp 214); the fuel bounds the
unbounded source recursion. -/
def checkDepth : Nat → Sheet → Position → Position → Option Bool × Sheet
  | 0, S, _, _ => (none, S)
  | fuel + 1, S, r, tgt =>
    checkGo (checkDepth fuel) S (some r)
      (bodyRefs ((cellAt S r).getD emptyCell).body) tgt

/-- `Cell::CheckCyclicDependencies` (cell.cpp 201-219). -/
def CheckCyclicDependencies (fuel : Nat) (S : Sheet) (self : Option Position)
    (cur : List Position) (tgt : Position) : Option Bool × Sheet :=
  checkGo (checkDepth fuel) S self cur tgt

/-- `dependent_cells_.erase(this)` (cell.cpp 160): the probe uses the
bucket of the erased cell's current text `key` (cell.h 26-37), so only
a record whose stored insertion-time text equals `key` is found and
removed — after a text change the erase misses and the record stays. -/
def eraseDepStep (p : Position) (key : String) (c : Cell) : Cell :=
  { c with dependents :=
      c.dependents.filter (fun d => decide (¬ (d.1 = p ∧ d.2 = key))) }

/-- `Cell::AddDependentCell` (cell.cpp 198-200): the insert probes the
bucket of the inserted cell's current text `key`; when no record is
found there, the pair is stored. -/
def insDepStep (p : Position) (key : String) (c : Cell) : Cell :=
  { c with dependents :=
      if (p, key) ∈ c.dependents then c.dependents
      else (p, key) :: c.dependents }

/-- `Cell::InvalidateCache` (cell.cpp 248-250). -/
def invalStep (c : Cell) : Cell := { c with body := invalidateBody c.body }

/-- The old-references loop of `Cell::Set` (cell.cpp 157-161); the body
has already been swapped, so the probe key is the *new* text. -/
def eraseDeps (S : Sheet) (l : List Position) (p : Position) (key : String) :
    Sheet :=
  l.foldl (fun Sa r => writeCell Sa r (eraseDepStep p key)) S

/-- The new-references loop of `Cell::Set` (cell.cpp 162-172). -/
def addDeps (S : Sheet) (l : List Position) (p : Position) (key : String) :
    Sheet :=
  l.foldl (fun Sa r =>
    writeCell (if cellAt Sa r = none then materialize Sa r else Sa) r
      (insDepStep p key)) S

/-- The invalidation loop of `Cell::Set` (cell.cpp 173-176). -/
def invalDeps (S : Sheet) (l : List (Position × String)) : Sheet :=
  l.foldl (fun Sa d => writeCell Sa d.1 invalStep) S

/-- The outcome of an edit, as in `CellLevel`. -/
inductive SetOut
  | ok (S : Sheet)
  | exc (e : ErrK) (S : Sheet)
  | fuelOut
deriving DecidableEq

/-- `Sheet::SetCell` delegating to `Cell::Set(text, pos)` (cell.cpp
130-177), as in `CellLevel` but with the hashed dependents container:
the body swap (cell.cpp 154-155) happens before the erase loop, so both
rewiring loops probe with the new text as the key. -/
def SetCell (fuel : Nat) (S : Sheet) (p : Position) (t : String) : SetOut :=
  if ¬ p.IsValid then .exc .invalidPos S
  else
    let S₀ := grow S p
    match cellAt S₀ p with
    | some c =>
      if bodyText c.body = t then .ok S₀
      else
        let newBody := parseBody t
        let newRefs := bodyRefs newBody
        match (if newRefs.isEmpty then (some false, S₀)
               else CheckCyclicDependencies fuel S₀ (some p) newRefs p) with
        | (none, _) => .fuelOut
        | (some true, S₁) => .exc .circular S₁
        | (some false, S₁) =>
          let oldRefs := bodyRefs ((cellAt S₁ p).getD emptyCell).body
          let S₂ := writeCell S₁ p (fun c => { c with body := newBody })
          let key := bodyText newBody
          let S₃ := eraseDeps S₂ oldRefs p key
          let S₄ := addDeps S₃ newRefs p key
          .ok (invalDeps S₄ ((cellAt S₄ p).getD emptyCell).dependents)
    | none =>
      let newBody := parseBody t
      let newRefs := bodyRefs newBody
      match (if newRefs.isEmpty then (some false, S₀)
             else CheckCyclicDependencies fuel S₀ none newRefs p) with
      | (none, _) => .fuelOut
      | (some true, S₁) => .exc .circular S₁
      | (some false, S₁) =>
        .ok (writeSlot (addDeps S₁ newRefs p (bodyText newBody)) p
          (some ⟨newBody, []⟩))

end HashLevel

/-! ## Lemmas: list and grid plumbing -/

theorem getElem?_listModify (f : α → α) (n : Nat) (l : List α) (m : Nat) :
    (listModify f n l)[m]? = if m = n then (l[n]?).map f else l[m]? := by
  induction l generalizing n m with
  | nil => cases n <;> cases m <;> simp [listModify]
  | cons x xs ih =>
    cases n with
    | zero =>
      cases m with
      | zero => simp [listModify]
      | succ m => simp [listModify]
    | succ n =>
      cases m with
      | zero => simp [listModify]
      | succ m =>
        simp only [listModify, List.getElem?_cons_succ, ih n m,
          Nat.add_right_cancel_iff]

theorem length_listModify (f : α → α) (n : Nat) (l : List α) :
    (listModify f n l).length = l.length := by
  induction l generalizing n with
  | nil => cases n <;> rfl
  | cons x xs ih =>
    cases n with
    | zero => simp [listModify]
    | succ n => simp [listModify, ih]

theorem length_padTo (l : List α) (n : Nat) (x : α) :
    (padTo l n x).length = max l.length n := by
  simp [padTo]
  omega

theorem getElem?_padTo (l : List α) (n : Nat) (x : α) (m : Nat) :
    (padTo l n x)[m]? = if m < l.length then l[m]?
      else if m < n then some x else none := by
  unfold padTo
  rw [List.getElem?_append]
  by_cases h : m < l.length
  · rw [if_pos h, if_pos h]
  · rw [if_neg h, if_neg h, List.getElem?_replicate]
    by_cases hm : m < n
    · rw [if_pos (by omega), if_pos hm]
    · rw [if_neg (by omega), if_neg hm]

/-- The joined cell content of a grid position. -/
def gridCell (g : List (List (Option α))) (p : Position) : Option α :=
  (gridGet g p).join

theorem option_join_map (f : α → α) (oo : Option (Option α)) :
    (oo.map (Option.map f)).join = oo.join.map f := by
  cases oo with
  | none => rfl
  | some o => cases o <;> rfl

theorem gridGet_outside (g : List (List (Option α))) (p : Position)
    (h : ¬ p.row < g.length) : gridGet g p = none := by
  have hg : g[p.row]? = none := by rw [List.getElem?_eq_none]; omega
  simp [gridGet, hg]

theorem gridCell_grow (g : List (List (Option α))) (p q : Position) :
    gridCell (growGrid g p) q = gridCell g q := by
  obtain ⟨pr, pc⟩ := p
  obtain ⟨qr, qc⟩ := q
  unfold gridCell gridGet growGrid
  rw [getElem?_listModify]
  by_cases hr : qr = pr
  · subst hr
    rw [if_pos rfl, getElem?_padTo]
    by_cases h1 : qr < g.length
    · rw [if_pos h1]
      cases hrow : g[qr]? with
      | none => rw [List.getElem?_eq_none_iff] at hrow; omega
      | some row =>
        simp only [Option.map_some', Option.some_bind]
        rw [getElem?_padTo]
        by_cases h2 : qc < row.length
        · rw [if_pos h2]
        · have hcol : row[qc]? = none := by rw [List.getElem?_eq_none]; omega
          rw [if_neg h2, hcol]
          split <;> rfl
    · have hg : g[qr]? = none := by rw [List.getElem?_eq_none]; omega
      rw [if_neg h1, if_pos (Nat.lt_succ_self qr), hg]
      simp only [Option.map_some', Option.some_bind, Option.none_bind]
      rw [getElem?_padTo]
      simp only [List.length_nil, Nat.not_lt_zero, if_false,
        List.getElem?_nil]
      split <;> rfl
  · rw [if_neg hr, getElem?_padTo]
    by_cases h1 : qr < g.length
    · rw [if_pos h1]
    · have hg : g[qr]? = none := by rw [List.getElem?_eq_none]; omega
      rw [if_neg h1, hg]
      split
      · simp only [Option.some_bind, List.getElem?_nil, Option.none_bind]
      · rfl

theorem gridCell_writeCellG (g : List (List (Option α))) (p : Position)
    (f : α → α) (q : Position) :
    gridCell (writeCellG g p f) q =
      if q = p then (gridCell g q).map f else gridCell g q := by
  obtain ⟨pr, pc⟩ := p
  obtain ⟨qr, qc⟩ := q
  unfold gridCell gridGet writeCellG
  rw [getElem?_listModify]
  by_cases hr : qr = pr
  · subst hr
    rw [if_pos rfl]
    cases hrow : g[qr]? with
    | none => simp
    | some row =>
      simp only [Option.map_some', Option.some_bind]
      rw [getElem?_listModify]
      by_cases hc : qc = pc
      · subst hc
        rw [if_pos rfl, if_pos rfl]
        exact option_join_map f row[qc]?
      · rw [if_neg hc, if_neg (by simp [hc])]
  · rw [if_neg hr, if_neg (by simp [hr])]

theorem gridSlot_writeCellG_isSome (g : List (List (Option α))) (p : Position)
    (f : α → α) (q : Position) :
    (gridGet (writeCellG g p f) q).isSome = (gridGet g q).isSome := by
  obtain ⟨pr, pc⟩ := p
  obtain ⟨qr, qc⟩ := q
  unfold gridGet writeCellG
  rw [getElem?_listModify]
  by_cases hr : qr = pr
  · subst hr
    rw [if_pos rfl]
    cases hrow : g[qr]? with
    | none => rfl
    | some row =>
      simp only [Option.map_some', Option.some_bind]
      rw [getElem?_listModify]
      by_cases hc : qc = pc
      · subst hc
        rw [if_pos rfl]
        cases hcol : row[qc]? <;> rfl
      · rw [if_neg hc]
  · rw [if_neg hr]

theorem gridSlot_grow_self (g : List (List (Option α))) (p : Position) :
    (gridGet (growGrid g p) p).isSome := by
  obtain ⟨pr, pc⟩ := p
  unfold gridGet growGrid
  rw [getElem?_listModify, if_pos rfl, getElem?_padTo]
  by_cases h1 : pr < g.length
  · rw [if_pos h1]
    cases hrow : g[pr]? with
    | none => rw [List.getElem?_eq_none_iff] at hrow; omega
    | some row =>
      simp only [Option.map_some', Option.some_bind]
      rw [getElem?_padTo]
      by_cases h2 : pc < row.length
      · rw [if_pos h2]
        cases hcol : row[pc]? with
        | none => rw [List.getElem?_eq_none_iff] at hcol; omega
        | some v => rfl
      · rw [if_neg h2, if_pos (Nat.lt_succ_self pc)]
        rfl
  · rw [if_neg h1, if_pos (Nat.lt_succ_self pr)]
    simp only [Option.map_some', Option.some_bind]
    rw [getElem?_padTo]
    simp only [List.length_nil, Nat.not_lt_zero, if_false,
      if_pos (Nat.lt_succ_self pc)]
    rfl

theorem gridSlot_grow_mono (g : List (List (Option α))) (p q : Position)
    (h : (gridGet g q).isSome) : (gridGet (growGrid g p) q).isSome := by
  obtain ⟨pr, pc⟩ := p
  obtain ⟨qr, qc⟩ := q
  unfold gridGet at h
  cases hrow : g[qr]? with
  | none => rw [hrow] at h; simp at h
  | some row =>
    have h1 : qr < g.length := by
      by_contra hcon
      rw [List.getElem?_eq_none (by omega)] at hrow
      exact Option.noConfusion hrow
    rw [hrow] at h
    simp only [Option.some_bind] at h
    unfold gridGet growGrid
    rw [getElem?_listModify]
    by_cases hr : qr = pr
    · subst hr
      rw [if_pos rfl, getElem?_padTo, if_pos h1, hrow]
      simp only [Option.map_some', Option.some_bind]
      rw [getElem?_padTo]
      have h2 : qc < row.length := by
        by_contra hcon
        rw [List.getElem?_eq_none (by omega)] at h
        simp at h
      rw [if_pos h2]
      exact h
    · rw [if_neg hr, getElem?_padTo, if_pos h1, hrow]
      simpa using h

theorem gridCell_writeSlotG (g : List (List (Option α))) (p : Position)
    (c : Option α) (q : Position) :
    gridCell (writeSlotG g p c) q =
      if q = p ∧ (gridGet g p).isSome then c else gridCell g q := by
  obtain ⟨pr, pc⟩ := p
  obtain ⟨qr, qc⟩ := q
  unfold gridCell gridGet writeSlotG
  rw [getElem?_listModify]
  by_cases hr : qr = pr
  · subst hr
    rw [if_pos rfl]
    cases hrow : g[qr]? with
    | none =>
      rw [if_neg (by rintro ⟨-, h2⟩; simp at h2)]
      rfl
    | some row =>
      simp only [Option.map_some', Option.some_bind]
      rw [getElem?_listModify]
      by_cases hc : qc = pc
      · subst hc
        rw [if_pos rfl]
        cases hcol : row[qc]? with
        | none =>
          rw [if_neg (by rintro ⟨-, h2⟩; simp [hcol] at h2)]
          rfl
        | some v =>
          rw [if_pos ⟨rfl, by simp [hcol]⟩]
          rfl
      · rw [if_neg hc, if_neg (by rintro ⟨h1, -⟩; simp [hc] at h1)]
  · rw [if_neg hr, if_neg (by rintro ⟨h1, -⟩; simp [hr] at h1)]

theorem gridGet_writeSlotG_isSome (g : List (List (Option α))) (p : Position)
    (c : Option α) (q : Position) :
    (gridGet (writeSlotG g p c) q).isSome = (gridGet g q).isSome := by
  obtain ⟨pr, pc⟩ := p
  obtain ⟨qr, qc⟩ := q
  unfold gridGet writeSlotG
  rw [getElem?_listModify]
  by_cases hr : qr = pr
  · subst hr
    rw [if_pos rfl]
    cases hrow : g[qr]? with
    | none => rfl
    | some row =>
      simp only [Option.map_some', Option.some_bind]
      rw [getElem?_listModify]
      by_cases hc : qc = pc
      · subst hc
        rw [if_pos rfl]
        cases hcol : row[qc]? <;> rfl
      · rw [if_neg hc]
  · rw [if_neg hr]

namespace CellLevel

theorem cellAt_grow (S : Sheet) (p q : Position) :
    cellAt (grow S p) q = cellAt S q :=
  gridCell_grow S.grid p q

theorem cellAt_writeCell (S : Sheet) (p : Position) (f : Cell → Cell)
    (q : Position) :
    cellAt (writeCell S p f) q =
      if q = p then (cellAt S q).map f else cellAt S q :=
  gridCell_writeCellG S.grid p f q

theorem cellAt_writeSlot (S : Sheet) (p : Position) (c : Option Cell)
    (q : Position) :
    cellAt (writeSlot S p c) q =
      if q = p ∧ (slotAt S p).isSome then c else cellAt S q :=
  gridCell_writeSlotG S.grid p c q

theorem cellAt_materialize (S : Sheet) (p q : Position) :
    cellAt (materialize S p) q = if q = p then some emptyCell else cellAt S q := by
  unfold materialize
  rw [cellAt_writeSlot]
  by_cases h : q = p
  · rw [if_pos ⟨h, gridSlot_grow_self S.grid p⟩, if_pos h]
  · rw [if_neg (by simp [h]), if_neg h, cellAt_grow]

/-! ### Evolution of the sheet during the cycle check

The only mutation `Cell::CheckCyclicDependencies` performs is the
materialization of absent referenced cells as empty (cell.cpp 207-210).
`Evolves S S'` captures it: every position holds the same cell as
before, except that some previously absent positions now hold a fresh
empty cell. -/

/-- The state relation left by check-time materialization: every
position holds the same cell as before, except that some previously
absent positions now hold a fresh empty cell; the allocated slot extent
only grows. -/
def Evolves (S S' : Sheet) : Prop :=
  (∀ q, cellAt S' q = cellAt S q ∨
    (cellAt S q = none ∧ cellAt S' q = some emptyCell)) ∧
  (∀ q, (slotAt S q).isSome → (slotAt S' q).isSome)

theorem evolves_refl (S : Sheet) : Evolves S S :=
  ⟨fun _ => Or.inl rfl, fun _ h => h⟩

theorem evolves_trans {S T U : Sheet} (h1 : Evolves S T) (h2 : Evolves T U) :
    Evolves S U := by
  refine ⟨fun q => ?_, fun q hq => h2.2 q (h1.2 q hq)⟩
  rcases h2.1 q with h | ⟨hT, hU⟩
  · rcases h1.1 q with h' | ⟨hS, hT'⟩
    · exact Or.inl (h.trans h')
    · exact Or.inr ⟨hS, h.trans hT'⟩
  · rcases h1.1 q with h' | ⟨hS, hT'⟩
    · exact Or.inr ⟨h' ▸ hT, hU⟩
    · rw [hT'] at hT
      exact Option.noConfusion hT

theorem evolves_cellAt_some {S S' : Sheet} (h : Evolves S S') {a : Position}
    {c : Cell} (hc : cellAt S a = some c) : cellAt S' a = some c := by
  rcases h.1 a with h' | ⟨hn, _⟩
  · rw [h', hc]
  · rw [hn] at hc
    exact Option.noConfusion hc

theorem evolves_edge_iff {S S' : Sheet} (h : Evolves S S') (a b : Position) :
    edge S' a b ↔ edge S a b := by
  constructor
  · rintro ⟨c, hc, hb⟩
    rcases h.1 a with h' | ⟨hn, he⟩
    · exact ⟨c, h' ▸ hc, hb⟩
    · rw [he] at hc
      cases hc
      simp [emptyCell, bodyRefs] at hb
  · rintro ⟨c, hc, hb⟩
    exact ⟨c, evolves_cellAt_some h hc, hb⟩

theorem reaches_iff_of_edge_iff {S S' : Sheet}
    (h : ∀ a b, edge S a b ↔ edge S' a b) (a b : Position) :
    Reaches S a b ↔ Reaches S' a b := by
  constructor
  · intro hr
    exact Relation.ReflTransGen.mono (fun x y => (h x y).mp) hr
  · intro hr
    exact Relation.ReflTransGen.mono (fun x y => (h x y).mpr) hr

theorem acyclic_iff_of_edge_iff {S S' : Sheet}
    (h : ∀ a b, edge S a b ↔ edge S' a b) : Acyclic S ↔ Acyclic S' := by
  unfold Acyclic
  constructor
  · intro ha p hp
    exact ha p (Relation.TransGen.mono (fun x y => (h x y).mpr) hp)
  · intro ha p hp
    exact ha p (Relation.TransGen.mono (fun x y => (h x y).mp) hp)

theorem slotSome_materialize (S : Sheet) (r q : Position)
    (h : (slotAt S q).isSome) : (slotAt (materialize S r) q).isSome := by
  unfold materialize writeSlot slotAt
  rw [gridGet_writeSlotG_isSome]
  exact gridSlot_grow_mono S.grid r q h

theorem matStep_evolves (S : Sheet) (r : Position) :
    Evolves S (if cellAt S r = none then materialize S r else S) := by
  by_cases h : cellAt S r = none
  · rw [if_pos h]
    refine ⟨fun q => ?_, fun q hq => slotSome_materialize S r q hq⟩
    rw [cellAt_materialize]
    by_cases hq : q = r
    · subst hq
      exact Or.inr ⟨h, if_pos rfl⟩
    · exact Or.inl (if_neg hq)
  · rw [if_neg h]
    exact evolves_refl S

theorem checkGo_evolves {descend : Sheet → Position → Position → Option Bool × Sheet}
    (hd : ∀ S r tgt, Evolves S (descend S r tgt).2) :
    ∀ (cur : List Position) (S : Sheet) (self : Option Position) (tgt : Position),
      Evolves S (checkGo descend S self cur tgt).2 := by
  intro cur
  induction cur with
  | nil => intro S self tgt; exact evolves_refl S
  | cons r rs ih =>
    intro S self tgt
    by_cases h1 : r = tgt
    · simp only [checkGo, if_pos h1]
      exact evolves_refl S
    · have hm := matStep_evolves S r
      by_cases h2 : self = some r
      · simp only [checkGo, if_neg h1, if_pos h2]
        exact hm
      · simp only [checkGo, if_neg h1, if_neg h2]
        rcases hdes : descend (if cellAt S r = none then materialize S r else S) r tgt with ⟨b, S₂⟩
        have hev2 : Evolves S S₂ := by
          have := hd (if cellAt S r = none then materialize S r else S) r tgt
          rw [hdes] at this
          exact evolves_trans hm this
        cases b with
        | none => exact hev2
        | some bv =>
          cases bv with
          | true => exact hev2
          | false => exact evolves_trans hev2 (ih S₂ self tgt)

theorem checkDepth_evolves (fuel : Nat) :
    ∀ (S : Sheet) (r tgt : Position), Evolves S (checkDepth fuel S r tgt).2 := by
  induction fuel with
  | zero => intro S r tgt; exact evolves_refl S
  | succ fuel ih =>
    intro S r tgt
    exact checkGo_evolves ih _ S _ tgt

theorem check_evolves (fuel : Nat) (S : Sheet) (self : Option Position)
    (cur : List Position) (tgt : Position) :
    Evolves S (CheckCyclicDependencies fuel S self cur tgt).2 :=
  checkGo_evolves (checkDepth_evolves fuel) cur S self tgt

/-! ### Soundness of a negative cycle check

When the traversal completes and answers `false`, no reference listed in
`cur` reaches the forbidden target along reference edges. -/

theorem checkGo_false_sound
    {descend : Sheet → Position → Position → Option Bool × Sheet}
    (hd_ev : ∀ S r tgt, Evolves S (descend S r tgt).2)
    (hd_sound : ∀ S r tgt S', descend S r tgt = (some false, S') →
      ∀ b, edge S r b → ¬ Reaches S b tgt) :
    ∀ (cur : List Position) (S : Sheet) (self : Option Position) (tgt : Position)
      (S' : Sheet), checkGo descend S self cur tgt = (some false, S') →
      ∀ r ∈ cur, ¬ Reaches S r tgt := by
  intro cur
  induction cur with
  | nil => intro S self tgt S' _ r hr; cases hr
  | cons r rs ih =>
    intro S self tgt S' hchk x hx
    by_cases h1 : r = tgt
    · simp only [checkGo, if_pos h1] at hchk
      cases hchk
    · by_cases h2 : self = some r
      · simp only [checkGo, if_neg h1, if_pos h2] at hchk
        cases hchk
      · simp only [checkGo, if_neg h1, if_neg h2] at hchk
        rcases hdes : descend (if cellAt S r = none then materialize S r else S) r tgt with ⟨b, S₂⟩
        rw [hdes] at hchk
        have hm := matStep_evolves S r
        cases b with
        | none => cases hchk
        | some bv =>
          cases bv with
          | true => cases hchk
          | false =>
            have hev2 : Evolves S S₂ := by
              have := hd_ev (if cellAt S r = none then materialize S r else S) r tgt
              rw [hdes] at this
              exact evolves_trans hm this
            rcases List.mem_cons.mp hx with hx | hx
            · -- the head reference: a path from it to the target is
              -- either trivial (excluded by the r = tgt test) or starts
              -- with an edge into one of its own references
              subst hx
              intro hre
              rcases Relation.reflTransGen_iff_eq_or_transGen.mp hre with
                heq | htg
              · exact h1 heq.symm
              · rcases Relation.TransGen.head'_iff.mp htg with ⟨b, hb, hbr⟩
                exact hd_sound _ x tgt S₂ hdes b
                  ((evolves_edge_iff hm x b).mpr hb)
                  ((reaches_iff_of_edge_iff
                    (fun a c => (evolves_edge_iff hm a c).symm) b tgt).mp hbr)
            · -- a later sibling, handled by the recursive call from S₂
              have hneg := ih S₂ self tgt S' hchk x hx
              intro hre
              exact hneg ((reaches_iff_of_edge_iff
                (fun a c => (evolves_edge_iff hev2 a c).symm) x tgt).mp hre)

theorem checkDepth_false_sound (fuel : Nat) :
    ∀ (S : Sheet) (r tgt : Position) (S' : Sheet),
      checkDepth fuel S r tgt = (some false, S') →
      ∀ b, edge S r b → ¬ Reaches S b tgt := by
  induction fuel with
  | zero =>
    intro S r tgt S' h
    simp [checkDepth] at h
  | succ fuel ih =>
    intro S r tgt S' h b hb hre
    obtain ⟨c, hc, hbc⟩ := hb
    have hmem : b ∈ bodyRefs ((cellAt S r).getD emptyCell).body := by
      rw [hc]
      exact hbc
    exact checkGo_false_sound (checkDepth_evolves fuel) ih _ S (some r) tgt S'
      h b hmem hre

theorem check_false_sound (fuel : Nat) (S : Sheet) (self : Option Position)
    (cur : List Position) (tgt : Position) (S' : Sheet)
    (h : CheckCyclicDependencies fuel S self cur tgt = (some false, S')) :
    ∀ r ∈ cur, ¬ Reaches S r tgt :=
  checkGo_false_sound (checkDepth_evolves fuel) (checkDepth_false_sound fuel)
    cur S self tgt S' h

/-! ### Pointwise descriptions of the rewiring loops -/

theorem filter_idem (f : α → Bool) (l : List α) :
    (l.filter f).filter f = l.filter f := by
  induction l with
  | nil => rfl
  | cons x xs ih =>
    by_cases h : f x
    · simp [List.filter_cons, h, ih]
    · simp [List.filter_cons, h, ih]

theorem eraseDepStep_idem (p : Position) (c : Cell) :
    eraseDepStep p (eraseDepStep p c) = eraseDepStep p c := by
  simp [eraseDepStep, filter_idem]

theorem insDepStep_idem (p : Position) (c : Cell) :
    insDepStep p (insDepStep p c) = insDepStep p c := by
  unfold insDepStep
  by_cases h : p ∈ c.dependents
  · simp [h]
  · simp [h]

theorem invalStep_idem (c : Cell) : invalStep (invalStep c) = invalStep c := by
  unfold invalStep
  cases hb : c.body <;> simp [invalidateBody]

theorem cellAt_foldl_writeCell (f : Cell → Cell) (hf : ∀ c, f (f c) = f c) :
    ∀ (l : List Position) (S : Sheet) (q : Position),
      cellAt (l.foldl (fun Sa r => writeCell Sa r f) S) q =
        if q ∈ l then (cellAt S q).map f else cellAt S q := by
  intro l
  induction l with
  | nil => intro S q; simp
  | cons r rs ih =>
    intro S q
    rw [List.foldl_cons, ih]
    by_cases hqr : q = r
    · subst hqr
      by_cases hqrs : q ∈ rs
      · rw [if_pos hqrs, if_pos (List.mem_cons_self ..), cellAt_writeCell,
          if_pos rfl]
        cases ho : cellAt S q with
        | none => rfl
        | some c => simp [hf]
      · rw [if_neg hqrs, if_pos (List.mem_cons_self ..), cellAt_writeCell,
          if_pos rfl]
    · rw [cellAt_writeCell, if_neg hqr]
      by_cases hqrs : q ∈ rs
      · rw [if_pos hqrs, if_pos (List.mem_cons_of_mem r hqrs)]
      · rw [if_neg hqrs, if_neg (by simp [hqr, hqrs])]

theorem cellAt_eraseDeps (l : List Position) (p : Position) (S : Sheet)
    (q : Position) :
    cellAt (eraseDeps S l p) q =
      if q ∈ l then (cellAt S q).map (eraseDepStep p) else cellAt S q :=
  cellAt_foldl_writeCell (eraseDepStep p) (eraseDepStep_idem p) l S q

theorem cellAt_invalDeps (l : List Position) (S : Sheet) (q : Position) :
    cellAt (invalDeps S l) q =
      if q ∈ l then (cellAt S q).map invalStep else cellAt S q :=
  cellAt_foldl_writeCell invalStep invalStep_idem l S q

theorem cellAt_addDeps_step (S : Sheet) (r p q : Position) :
    cellAt (writeCell (if cellAt S r = none then materialize S r else S) r
      (insDepStep p)) q =
      if q = r then some (insDepStep p ((cellAt S q).getD emptyCell))
      else cellAt S q := by
  rw [cellAt_writeCell]
  by_cases hq : q = r
  · subst hq
    rw [if_pos rfl, if_pos rfl]
    by_cases h : cellAt S q = none
    · rw [if_pos h, cellAt_materialize, if_pos rfl, h]
      rfl
    · rw [if_neg h]
      cases ho : cellAt S q with
      | none => exact absurd ho h
      | some c => rfl
  · rw [if_neg hq, if_neg hq]
    by_cases h : cellAt S r = none
    · rw [if_pos h, cellAt_materialize, if_neg hq]
    · rw [if_neg h]

theorem cellAt_addDeps (l : List Position) (p : Position) :
    ∀ (S : Sheet) (q : Position),
      cellAt (addDeps S l p) q =
        if q ∈ l then some (insDepStep p ((cellAt S q).getD emptyCell))
        else cellAt S q := by
  induction l with
  | nil => intro S q; simp [addDeps]
  | cons r rs ih =>
    intro S q
    unfold addDeps
    rw [List.foldl_cons]
    have hstep := cellAt_addDeps_step S r p
    show cellAt (addDeps _ rs p) q = _
    rw [ih, hstep]
    by_cases hqr : q = r
    · subst hqr
      by_cases hqrs : q ∈ rs
      · rw [if_pos hqrs, if_pos (List.mem_cons_self ..), if_pos rfl]
        simp [insDepStep_idem]
      · rw [if_neg hqrs, if_pos (List.mem_cons_self ..), if_pos rfl]
    · by_cases hqrs : q ∈ rs
      · rw [if_pos hqrs, if_pos (List.mem_cons_of_mem r hqrs), if_neg hqr]
      · simp [hqr, hqrs]

theorem slotSome_writeCell (S : Sheet) (p : Position) (f : Cell → Cell)
    (q : Position) :
    (slotAt (writeCell S p f) q).isSome = (slotAt S q).isSome :=
  gridSlot_writeCellG_isSome S.grid p f q

theorem slotSome_foldl_writeCell (f : Cell → Cell) :
    ∀ (l : List Position) (S : Sheet) (q : Position),
      (slotAt (l.foldl (fun Sa r => writeCell Sa r f) S) q).isSome =
        (slotAt S q).isSome := by
  intro l
  induction l with
  | nil => intro S q; rfl
  | cons r rs ih =>
    intro S q
    rw [List.foldl_cons, ih, slotSome_writeCell]

theorem slotSome_eraseDeps (l : List Position) (p : Position) (S : Sheet)
    (q : Position) :
    (slotAt (eraseDeps S l p) q).isSome = (slotAt S q).isSome :=
  slotSome_foldl_writeCell (eraseDepStep p) l S q

theorem slotSome_invalDeps (l : List Position) (S : Sheet) (q : Position) :
    (slotAt (invalDeps S l) q).isSome = (slotAt S q).isSome :=
  slotSome_foldl_writeCell invalStep l S q

theorem slotSome_addDeps (l : List Position) (p : Position) :
    ∀ (S : Sheet) (q : Position), (slotAt S q).isSome →
      (slotAt (addDeps S l p) q).isSome := by
  induction l with
  | nil => intro S q h; exact h
  | cons r rs ih =>
    intro S q h
    unfold addDeps
    rw [List.foldl_cons]
    show (slotAt (addDeps _ rs p) q).isSome
    refine ih _ q ?_
    rw [slotSome_writeCell]
    by_cases hm : cellAt S r = none
    · rw [if_pos hm]
      exact slotSome_materialize S r q h
    · rw [if_neg hm]
      exact h

theorem edge_grow_iff (S : Sheet) (p a b : Position) :
    edge (grow S p) a b ↔ edge S a b := by
  unfold edge
  rw [cellAt_grow]

/-! ### Acyclicity is preserved by an accepted rewiring

If the new graph differs from the old one only at `p`'s outgoing edges,
and no new target of `p` reached `p` in the old graph, acyclicity is
preserved. -/

theorem reach_decomp {S S' : Sheet} {p : Position} {R : List Position}
    (he : ∀ a b, a ≠ p → (edge S' a b ↔ edge S a b))
    (hp : ∀ b, edge S' p b → b ∈ R) :
    ∀ a b, Relation.ReflTransGen (edge S') a b →
      Reaches S a b ∨
        (Reaches S a p ∧ ∃ r ∈ R, Relation.ReflTransGen (edge S') r b) := by
  intro a b h
  induction h using Relation.ReflTransGen.head_induction_on with
  | refl => exact Or.inl Relation.ReflTransGen.refl
  | head hstep hrest ih =>
    rename_i x y
    by_cases hxp : x = p
    · subst hxp
      exact Or.inr ⟨Relation.ReflTransGen.refl, y, hp y hstep, hrest⟩
    · rcases ih with h1 | ⟨h1, r, hrR, h2⟩
      · exact Or.inl (Relation.ReflTransGen.head ((he x y hxp).mp hstep) h1)
      · exact Or.inr
          ⟨Relation.ReflTransGen.head ((he x y hxp).mp hstep) h1, r, hrR, h2⟩

theorem acyclic_update {S S' : Sheet} {p : Position} {R : List Position}
    (he : ∀ a b, a ≠ p → (edge S' a b ↔ edge S a b))
    (hp : ∀ b, edge S' p b → b ∈ R)
    (hnew : ∀ r ∈ R, ¬ Reaches S r p)
    (hacy : Acyclic S) : Acyclic S' := by
  intro q hq
  rcases Relation.TransGen.head'_iff.mp hq with ⟨y, hqy, hyq⟩
  by_cases hqp : q = p
  · subst hqp
    rcases reach_decomp he hp y q hyq with h1 | ⟨h1, r, hrR, hr2⟩
    · exact hnew y (hp y hqy) h1
    · exact hnew y (hp y hqy) h1
  · have hSqy : edge S q y := (he q y hqp).mp hqy
    rcases reach_decomp he hp y q hyq with h1 | ⟨h1, r, hrR, hr2⟩
    · exact hacy q (Relation.TransGen.head' hSqy h1)
    · have hqreach : Reaches S q p := Relation.ReflTransGen.head hSqy h1
      rcases reach_decomp he hp r q hr2 with h3 | ⟨h3, r', hr'R, hr'2⟩
      · exact hnew r hrR (h3.trans hqreach)
      · exact hnew r hrR h3

/-! ### Outgoing reference lists through the rewiring phases -/

/-- The outgoing reference list of a position (empty when absent). -/
def refsAt (S : Sheet) (a : Position) : List Position :=
  ((cellAt S a).map (fun c => bodyRefs c.body)).getD []

theorem edge_iff_refsAt (S : Sheet) (a b : Position) :
    edge S a b ↔ b ∈ refsAt S a := by
  unfold edge refsAt
  constructor
  · rintro ⟨c, hc, hb⟩
    rw [hc]
    simpa using hb
  · intro hb
    cases hc : cellAt S a with
    | none => rw [hc] at hb; cases hb
    | some c =>
      rw [hc] at hb
      exact ⟨c, rfl, by simpa using hb⟩

theorem bodyRefs_invalidateBody (b : Body) :
    bodyRefs (invalidateBody b) = bodyRefs b := by
  cases b <;> rfl

theorem refsAt_invalDeps (l : List Position) (S : Sheet) (a : Position) :
    refsAt (invalDeps S l) a = refsAt S a := by
  unfold refsAt
  rw [cellAt_invalDeps]
  split
  · cases hc : cellAt S a with
    | none => rfl
    | some c => simp [invalStep, bodyRefs_invalidateBody]
  · rfl

theorem refsAt_eraseDeps (l : List Position) (p : Position) (S : Sheet)
    (a : Position) : refsAt (eraseDeps S l p) a = refsAt S a := by
  unfold refsAt
  rw [cellAt_eraseDeps]
  split
  · cases hc : cellAt S a with
    | none => rfl
    | some c => rfl
  · rfl

theorem refsAt_addDeps (l : List Position) (p : Position) (S : Sheet)
    (a : Position) : refsAt (addDeps S l p) a = refsAt S a := by
  unfold refsAt
  rw [cellAt_addDeps]
  split
  · cases hc : cellAt S a with
    | none => simp [insDepStep, emptyCell, bodyRefs]
    | some c => simp [insDepStep]
  · rfl

theorem refsAt_writeCell_ne (S : Sheet) (p : Position) (f : Cell → Cell)
    (a : Position) (hap : a ≠ p) : refsAt (writeCell S p f) a = refsAt S a := by
  unfold refsAt
  rw [cellAt_writeCell, if_neg hap]

theorem refsAt_writeSlot_ne (S : Sheet) (p : Position) (c : Option Cell)
    (a : Position) (hap : a ≠ p) : refsAt (writeSlot S p c) a = refsAt S a := by
  unfold refsAt
  rw [cellAt_writeSlot, if_neg (by simp [hap])]

theorem refsAt_evolves {S S' : Sheet} (h : Evolves S S') (a : Position) :
    refsAt S' a = refsAt S a := by
  unfold refsAt
  rcases h.1 a with h' | ⟨hn, he⟩
  · rw [h']
  · rw [hn, he]
    rfl

/-- The edge structure of the fully rewired sheet of `Cell::Set`'s
success path, away from the edited position: unchanged. -/
theorem refsAt_editFinal_ne (S₁ : Sheet) (p : Position) (nb : Body)
    (oldRefs newRefs ds : List Position) (a : Position) (hap : a ≠ p) :
    refsAt (invalDeps (addDeps (eraseDeps (writeCell S₁ p
        (fun c => { c with body := nb })) oldRefs p) newRefs p) ds) a =
      refsAt S₁ a := by
  rw [refsAt_invalDeps, refsAt_addDeps, refsAt_eraseDeps,
    refsAt_writeCell_ne _ _ _ _ hap]

/-- At the edited position the rewired sheet's outgoing references are
those of the new body. -/
theorem refsAt_editFinal_self (S₁ : Sheet) (p : Position) (nb : Body)
    (oldRefs newRefs ds : List Position) {c : Cell}
    (hc : cellAt S₁ p = some c) :
    refsAt (invalDeps (addDeps (eraseDeps (writeCell S₁ p
        (fun c => { c with body := nb })) oldRefs p) newRefs p) ds) p =
      bodyRefs nb := by
  have hW : cellAt (writeCell S₁ p (fun c => { c with body := nb })) p =
      some { c with body := nb } := by
    rw [cellAt_writeCell, if_pos rfl, hc]
    rfl
  unfold refsAt
  rw [cellAt_invalDeps]
  have hArefs : ∀ o : Option Cell, o = cellAt (addDeps (eraseDeps (writeCell S₁ p
      (fun c => { c with body := nb })) oldRefs p) newRefs p) p →
      (o.map (fun c => bodyRefs c.body)).getD [] = bodyRefs nb := by
    intro o ho
    rw [cellAt_addDeps] at ho
    have hErefs : ((cellAt (eraseDeps (writeCell S₁ p
        (fun c => { c with body := nb })) oldRefs p) p).map
          (fun c => bodyRefs c.body)).getD [] = bodyRefs nb := by
      rw [cellAt_eraseDeps]
      split
      · rw [hW]
        rfl
      · rw [hW]
        rfl
    rcases hE : cellAt (eraseDeps (writeCell S₁ p
        (fun c => { c with body := nb })) oldRefs p) p with - | cE
    · exfalso
      rw [cellAt_eraseDeps] at hE
      split at hE <;> rw [hW] at hE <;> simp at hE
    · rw [hE] at hErefs
      split at ho
      · rw [ho, hE]
        simpa [insDepStep] using hErefs
      · rw [ho, hE]
        exact hErefs
  split
  · rcases hA : cellAt (addDeps (eraseDeps (writeCell S₁ p
        (fun c => { c with body := nb })) oldRefs p) newRefs p) p with - | cA
    · have := hArefs none hA.symm
      simpa using this
    · have := hArefs (some cA) hA.symm
      simpa [invalStep, bodyRefs_invalidateBody] using this
  · exact hArefs _ rfl

theorem checkStep_evolves {fuel : Nat} {S₀ S₁ : Sheet} {self : Option Position}
    {refs : List Position} {p : Position} {b0 : Option Bool}
    (h : (if refs.isEmpty then ((some false : Option Bool), S₀)
          else CheckCyclicDependencies fuel S₀ self refs p) = (b0, S₁)) :
    Evolves S₀ S₁ := by
  by_cases hemp : refs.isEmpty
  · rw [if_pos hemp] at h
    injection h with h1 h2
    subst h2
    exact evolves_refl S₀
  · rw [if_neg hemp] at h
    have hev := check_evolves fuel S₀ self refs p
    rw [h] at hev
    exact hev

theorem checkStep_false {fuel : Nat} {S₀ S₁ : Sheet} {self : Option Position}
    {refs : List Position} {p : Position}
    (h : (if refs.isEmpty then ((some false : Option Bool), S₀)
          else CheckCyclicDependencies fuel S₀ self refs p) = (some false, S₁)) :
    Evolves S₀ S₁ ∧ ∀ r ∈ refs, ¬ Reaches S₀ r p := by
  refine ⟨checkStep_evolves h, ?_⟩
  by_cases hemp : refs.isEmpty
  · intro r hr
    rw [List.isEmpty_iff] at hemp
    subst hemp
    cases hr
  · rw [if_neg hemp] at h
    exact check_false_sound fuel S₀ self refs p S₁ h

theorem acyclic_of_evolves {S S' : Sheet} (h : Evolves S S')
    (hacy : Acyclic S) : Acyclic S' :=
  (acyclic_iff_of_edge_iff (fun a b => (evolves_edge_iff h a b).symm)).mp hacy

/-- An accepted `SetCell` leaves the reference graph acyclic. -/
theorem setCell_ok_acyclic {fuel : Nat} {S S' : Sheet} {p : Position}
    {t : String} (hacy : Acyclic S) (h : SetCell fuel S p t = SetOut.ok S') :
    Acyclic S' := by
  have hacy₀ : Acyclic (grow S p) :=
    acyclic_of_evolves ⟨fun q => Or.inl (cellAt_grow S p q),
      fun q hq => by
        unfold slotAt grow
        exact gridSlot_grow_mono S.grid p q hq⟩ hacy
  simp only [SetCell] at h
  split at h
  · exact absurd h (by simp)
  split at h
  next c hc =>
    split at h
    next =>
      cases h
      exact hacy₀
    next =>
      split at h
      next heq => exact absurd h (by simp)
      next S₁ heq => exact absurd h (by simp)
      next S₁ heq =>
        cases h
        obtain ⟨hev, hsound⟩ := checkStep_false heq
        refine @acyclic_update (grow S p) _ p (bodyRefs (parseBody t))
          ?_ ?_ hsound hacy₀
        · intro a b hap
          rw [edge_iff_refsAt, refsAt_editFinal_ne _ _ _ _ _ _ _ hap,
            refsAt_evolves hev, ← edge_iff_refsAt]
        · intro b hb
          rw [edge_iff_refsAt, refsAt_editFinal_self _ _ _ _ _ _
            (evolves_cellAt_some hev hc)] at hb
          exact hb
  next hc =>
    split at h
    next heq => exact absurd h (by simp)
    next S₁ heq => exact absurd h (by simp)
    next S₁ heq =>
      cases h
      obtain ⟨hev, hsound⟩ := checkStep_false heq
      refine @acyclic_update (grow S p) _ p (bodyRefs (parseBody t))
        ?_ ?_ hsound hacy₀
      · intro a b hap
        rw [edge_iff_refsAt, refsAt_writeSlot_ne _ _ _ _ hap, refsAt_addDeps,
          refsAt_evolves hev, ← edge_iff_refsAt]
      · intro b hb
        rw [edge_iff_refsAt] at hb
        unfold refsAt at hb
        rw [cellAt_writeSlot] at hb
        split at hb
        · simpa using hb
        · rw [cellAt_addDeps] at hb
          split at hb
          · rcases hev.1 p with h' | ⟨hn, he⟩
            · rw [h', hc] at hb
              simp [insDepStep, emptyCell, bodyRefs] at hb
            · rw [he] at hb
              simp [insDepStep, emptyCell, bodyRefs] at hb
          · rcases hev.1 p with h' | ⟨hn, he⟩
            · rw [h', hc] at hb
              cases hb
            · rw [he] at hb
              simp [emptyCell, bodyRefs] at hb

/-- A `SetCell` rejected by the cycle check leaves the sheet it had
materialized into (relative to the grown storage). -/
theorem setCell_circ_evolves {fuel : Nat} {S S' : Sheet} {p : Position}
    {t : String} (h : SetCell fuel S p t = SetOut.exc ErrK.circular S') :
    Evolves (grow S p) S' := by
  simp only [SetCell] at h
  split at h
  · exact absurd h (by simp)
  split at h
  next c hc =>
    split at h
    next => exact absurd h (by simp)
    next =>
      split at h
      next heq => exact absurd h (by simp)
      next S₁ heq =>
        have h2 : S₁ = S' := by
          injection h with h1 h2
        subst h2
        exact checkStep_evolves heq
      next S₁ heq => exact absurd h (by simp)
  next hc =>
    split at h
    next heq => exact absurd h (by simp)
    next S₁ heq =>
      have h2 : S₁ = S' := by
        injection h with h1 h2
      subst h2
      exact checkStep_evolves heq
    next S₁ heq => exact absurd h (by simp)

theorem clearCell_ok_acyclic {S S' : Sheet} {p : Position} (hacy : Acyclic S)
    (h : ClearCell S p = Except.ok S') : Acyclic S' := by
  unfold ClearCell at h
  split at h
  · exact absurd h (by simp)
  split at h
  · cases h
    intro q hq
    refine hacy q (Relation.TransGen.mono ?_ hq)
    rintro x y ⟨c, hcx, hbx⟩
    rw [cellAt_writeSlot] at hcx
    split at hcx
    · exact Option.noConfusion hcx
    · exact ⟨c, hcx, hbx⟩
  · cases h
    exact hacy

theorem evolves_grow (S : Sheet) (p : Position) : Evolves S (grow S p) :=
  ⟨fun q => Or.inl (cellAt_grow S p q), fun q hq => by
    unfold slotAt grow
    exact gridSlot_grow_mono S.grid p q hq⟩

theorem acyclic_grow {S : Sheet} (p : Position) (h : Acyclic S) :
    Acyclic (grow S p) :=
  acyclic_of_evolves (evolves_grow S p) h

/-! ### Link-set consistency through the rewiring -/

theorem mem_insDepStep_self (p : Position) (c : Cell) :
    p ∈ (insDepStep p c).dependents := by
  unfold insDepStep
  by_cases h : p ∈ c.dependents
  · simp [h]
  · simp [h]

theorem mem_insDepStep_iff (a p : Position) (c : Cell) :
    a ∈ (insDepStep p c).dependents ↔ a = p ∨ a ∈ c.dependents := by
  unfold insDepStep
  by_cases h : p ∈ c.dependents
  · simp only [if_pos h]
    constructor
    · exact fun h' => Or.inr h'
    · rintro (rfl | h')
      · exact h
      · exact h'
  · simp [if_neg h]

theorem mem_eraseDepStep_iff (a p : Position) (c : Cell) :
    a ∈ (eraseDepStep p c).dependents ↔ a ∈ c.dependents ∧ a ≠ p := by
  unfold eraseDepStep
  simp [List.mem_filter]

theorem linkOK_evolves {S S' : Sheet} (hev : Evolves S S') (hL : LinkOK S) :
    LinkOK S' := by
  constructor
  · intro a c hc b hb
    rcases hev.1 a with h' | ⟨hn, he⟩
    · rw [h'] at hc
      obtain ⟨c', hc', hdep⟩ := hL.1 a c hc b hb
      exact ⟨c', evolves_cellAt_some hev hc', hdep⟩
    · rw [he] at hc
      cases hc
      simp [emptyCell, bodyRefs] at hb
  · intro b c' hc' a ha
    rcases hev.1 b with h' | ⟨hn, he⟩
    · rw [h'] at hc'
      obtain ⟨c, hc, href⟩ := hL.2 b c' hc' a ha
      exact ⟨c, evolves_cellAt_some hev hc, href⟩
    · rw [he] at hc'
      cases hc'
      simp [emptyCell] at ha

theorem linkOK_grow {S : Sheet} (p : Position) (hL : LinkOK S) :
    LinkOK (grow S p) :=
  linkOK_evolves (evolves_grow S p) hL

/-- `Cell::InvalidateCache` touches only memoized values, never the
reference lists or the dependents sets, so link consistency is
indifferent to the invalidation loop. -/
theorem linkOK_invalDeps {S : Sheet} (l : List Position) (hL : LinkOK S) :
    LinkOK (invalDeps S l) := by
  have hcell : ∀ q, cellAt (invalDeps S l) q =
      if q ∈ l then (cellAt S q).map invalStep else cellAt S q :=
    fun q => cellAt_invalDeps l S q
  have hcell' : ∀ q c, cellAt (invalDeps S l) q = some c →
      ∃ c₀, cellAt S q = some c₀ ∧ bodyRefs c.body = bodyRefs c₀.body ∧
        c.dependents = c₀.dependents := by
    intro q c hc
    rw [hcell q] at hc
    split at hc
    · cases h₀ : cellAt S q with
      | none => rw [h₀] at hc; cases hc
      | some c₀ =>
        rw [h₀] at hc
        cases hc
        exact ⟨c₀, rfl, bodyRefs_invalidateBody c₀.body, rfl⟩
    · exact ⟨c, hc, rfl, rfl⟩
  have hsome : ∀ q c₀, cellAt S q = some c₀ →
      ∃ c, cellAt (invalDeps S l) q = some c ∧
        bodyRefs c.body = bodyRefs c₀.body ∧ c.dependents = c₀.dependents := by
    intro q c₀ h₀
    rw [hcell q, h₀]
    split
    · exact ⟨invalStep c₀, rfl, bodyRefs_invalidateBody c₀.body, rfl⟩
    · exact ⟨c₀, rfl, rfl, rfl⟩
  constructor
  · intro a c hc b hb
    obtain ⟨c₀, h₀, hrefs, hdeps⟩ := hcell' a c hc
    rw [hrefs] at hb
    obtain ⟨c', hc', hdep⟩ := hL.1 a c₀ h₀ b hb
    obtain ⟨c'', hc'', -, hdeps''⟩ := hsome b c' hc'
    exact ⟨c'', hc'', hdeps'' ▸ hdep⟩
  · intro b c' hc' a ha
    obtain ⟨c₀, h₀, hrefs, hdeps⟩ := hcell' b c' hc'
    rw [hdeps] at ha
    obtain ⟨c, hc, href⟩ := hL.2 b c₀ h₀ a ha
    obtain ⟨c'', hc'', hrefs'', -⟩ := hsome a c hc
    exact ⟨c'', hc'', hrefs'' ▸ href⟩

/-- How the success path of `Cell::Set` transforms a cell away from the
edited position: references unchanged, and the dependents set loses `p`
when the cell was an old reference and gains `p` when it is a new one. -/
theorem rewire_fwd {S₁ : Sheet} {p : Position} {nb : Body} {c₁ : Cell}
    (hc₁ : cellAt S₁ p = some c₁) :
    ∀ q, q ≠ p → ∀ c₀, cellAt S₁ q = some c₀ →
      ∃ c', cellAt (addDeps (eraseDeps (writeCell S₁ p
          (fun c => { c with body := nb })) (bodyRefs c₁.body) p)
          (bodyRefs nb) p) q = some c' ∧
        bodyRefs c'.body = bodyRefs c₀.body ∧
        ∀ a, a ∈ c'.dependents ↔
          ((a = p ∧ q ∈ bodyRefs nb) ∨
           (a ∈ c₀.dependents ∧ ¬(q ∈ bodyRefs c₁.body ∧ a = p))) := by
  intro q hq c₀ h₀
  have hWq : cellAt (writeCell S₁ p (fun c => { c with body := nb })) q =
      cellAt S₁ q := by
    rw [cellAt_writeCell, if_neg hq]
  by_cases hold : q ∈ bodyRefs c₁.body <;> by_cases hnew : q ∈ bodyRefs nb
  · refine ⟨insDepStep p (eraseDepStep p c₀), ?_, rfl, ?_⟩
    · rw [cellAt_addDeps, if_pos hnew, cellAt_eraseDeps, if_pos hold, hWq, h₀]
      rfl
    · intro a
      rw [mem_insDepStep_iff, mem_eraseDepStep_iff]
      constructor
      · rintro (rfl | ⟨hmem, hne⟩)
        · exact Or.inl ⟨rfl, hnew⟩
        · exact Or.inr ⟨hmem, fun h => hne h.2⟩
      · rintro (⟨rfl, -⟩ | ⟨hmem, hg⟩)
        · exact Or.inl rfl
        · exact Or.inr ⟨hmem, fun h => hg ⟨hold, h⟩⟩
  · refine ⟨eraseDepStep p c₀, ?_, rfl, ?_⟩
    · rw [cellAt_addDeps, if_neg hnew, cellAt_eraseDeps, if_pos hold, hWq, h₀]
      rfl
    · intro a
      rw [mem_eraseDepStep_iff]
      constructor
      · rintro ⟨hmem, hne⟩
        exact Or.inr ⟨hmem, fun h => hne h.2⟩
      · rintro (⟨rfl, hc⟩ | ⟨hmem, hg⟩)
        · exact absurd hc hnew
        · exact ⟨hmem, fun h => hg ⟨hold, h⟩⟩
  · refine ⟨insDepStep p c₀, ?_, rfl, ?_⟩
    · rw [cellAt_addDeps, if_pos hnew, cellAt_eraseDeps, if_neg hold, hWq, h₀]
      rfl
    · intro a
      rw [mem_insDepStep_iff]
      constructor
      · rintro (rfl | hmem)
        · exact Or.inl ⟨rfl, hnew⟩
        · exact Or.inr ⟨hmem, fun h => hold h.1⟩
      · rintro (⟨rfl, -⟩ | ⟨hmem, -⟩)
        · exact Or.inl rfl
        · exact Or.inr hmem
  · refine ⟨c₀, ?_, rfl, ?_⟩
    · rw [cellAt_addDeps, if_neg hnew, cellAt_eraseDeps, if_neg hold, hWq, h₀]
    · intro a
      constructor
      · intro hmem
        exact Or.inr ⟨hmem, fun h => hold h.1⟩
      · rintro (⟨rfl, hc⟩ | ⟨hmem, -⟩)
        · exact absurd hc hnew
        · exact hmem

theorem rewire_bwd {S₁ : Sheet} {p : Position} {nb : Body} {c₁ : Cell}
    (hc₁ : cellAt S₁ p = some c₁) :
    ∀ q, q ≠ p → ∀ c', cellAt (addDeps (eraseDeps (writeCell S₁ p
        (fun c => { c with body := nb })) (bodyRefs c₁.body) p)
        (bodyRefs nb) p) q = some c' →
      (∃ c₀, cellAt S₁ q = some c₀ ∧ bodyRefs c'.body = bodyRefs c₀.body ∧
        ∀ a, a ∈ c'.dependents ↔
          ((a = p ∧ q ∈ bodyRefs nb) ∨
           (a ∈ c₀.dependents ∧ ¬(q ∈ bodyRefs c₁.body ∧ a = p)))) ∨
      (cellAt S₁ q = none ∧ q ∈ bodyRefs nb ∧ bodyRefs c'.body = [] ∧
        ∀ a, a ∈ c'.dependents ↔ a = p) := by
  intro q hq c' h'
  cases h₀ : cellAt S₁ q with
  | some c₀ =>
    left
    obtain ⟨c'', hc'', hrefs, hdeps⟩ := rewire_fwd hc₁ q hq c₀ h₀
    rw [h'] at hc''
    cases hc''
    exact ⟨c₀, rfl, hrefs, hdeps⟩
  | none =>
    right
    have hWq : cellAt (writeCell S₁ p (fun c => { c with body := nb })) q =
        cellAt S₁ q := by
      rw [cellAt_writeCell, if_neg hq]
    have hEnone : cellAt (eraseDeps (writeCell S₁ p
        (fun c => { c with body := nb })) (bodyRefs c₁.body) p) q = none := by
      rw [cellAt_eraseDeps]
      split <;> rw [hWq, h₀] <;> rfl
    rw [cellAt_addDeps, hEnone] at h'
    split at h'
    next hnew =>
      cases h'
      refine ⟨rfl, hnew, rfl, ?_⟩
      intro a
      simp [insDepStep, emptyCell]
    next => exact Option.noConfusion h'

/-- Link consistency is preserved by the full rewiring of `Cell::Set`'s
success path on an existing cell. -/
theorem linkOK_editRewire {S₁ : Sheet} {p : Position} {nb : Body} {c₁ : Cell}
    (hc₁ : cellAt S₁ p = some c₁) (hL : LinkOK S₁)
    (hpold : p ∉ bodyRefs c₁.body) (hpnew : p ∉ bodyRefs nb) :
    LinkOK (addDeps (eraseDeps (writeCell S₁ p (fun c => { c with body := nb }))
      (bodyRefs c₁.body) p) (bodyRefs nb) p) := by
  have hWp : cellAt (writeCell S₁ p (fun c => { c with body := nb })) p =
      some { c₁ with body := nb } := by
    rw [cellAt_writeCell, if_pos rfl, hc₁]
    rfl
  have hAp : cellAt (addDeps (eraseDeps (writeCell S₁ p
      (fun c => { c with body := nb })) (bodyRefs c₁.body) p)
      (bodyRefs nb) p) p = some { c₁ with body := nb } := by
    rw [cellAt_addDeps, if_neg hpnew, cellAt_eraseDeps, if_neg hpold, hWp]
  have hnonefwd : ∀ q, q ≠ p → cellAt S₁ q = none → q ∈ bodyRefs nb →
      cellAt (addDeps (eraseDeps (writeCell S₁ p
        (fun c => { c with body := nb })) (bodyRefs c₁.body) p)
        (bodyRefs nb) p) q = some (insDepStep p emptyCell) := by
    intro q hq h₀ hnew
    have hWq : cellAt (writeCell S₁ p (fun c => { c with body := nb })) q =
        cellAt S₁ q := by
      rw [cellAt_writeCell, if_neg hq]
    have hEnone : cellAt (eraseDeps (writeCell S₁ p
        (fun c => { c with body := nb })) (bodyRefs c₁.body) p) q = none := by
      rw [cellAt_eraseDeps]
      split <;> rw [hWq, h₀] <;> rfl
    rw [cellAt_addDeps, if_pos hnew, hEnone]
    rfl
  constructor
  · intro a cA hA b hb
    by_cases hap : a = p
    · rw [hap, hAp] at hA
      cases hA
      have hbnew : b ∈ bodyRefs nb := hb
      have hbp : b ≠ p := fun h => hpnew (h ▸ hbnew)
      cases hSb : cellAt S₁ b with
      | some c₀ =>
        obtain ⟨c', hc', -, hdeps⟩ := rewire_fwd hc₁ b hbp c₀ hSb
        exact ⟨c', hc', (hdeps a).mpr (Or.inl ⟨hap, hbnew⟩)⟩
      | none =>
        refine ⟨insDepStep p emptyCell, hnonefwd b hbp hSb hbnew, ?_⟩
        rw [mem_insDepStep_iff]
        exact Or.inl hap
    · rcases rewire_bwd hc₁ a hap cA hA with
        ⟨c₀, h₀, hrefs, -⟩ | ⟨-, -, hrefs, -⟩
      · rw [hrefs] at hb
        obtain ⟨cb, hSb, hdep⟩ := hL.1 a c₀ h₀ b hb
        by_cases hbp : b = p
        · rw [hbp, hc₁] at hSb
          cases hSb
          refine ⟨{ c₁ with body := nb }, ?_, hdep⟩
          rw [hbp]
          exact hAp
        · obtain ⟨c'', hc'', -, hdeps''⟩ := rewire_fwd hc₁ b hbp cb hSb
          exact ⟨c'', hc'', (hdeps'' a).mpr
            (Or.inr ⟨hdep, fun h => hap h.2⟩)⟩
      · rw [hrefs] at hb
        cases hb
  · intro b cB hB a ha
    by_cases hbp : b = p
    · rw [hbp, hAp] at hB
      cases hB
      have ha' : a ∈ c₁.dependents := ha
      obtain ⟨ca, hSa, hpref⟩ := hL.2 p c₁ hc₁ a ha'
      have hap : a ≠ p := by
        rintro rfl
        rw [hc₁] at hSa
        cases hSa
        exact hpold hpref
      obtain ⟨c'', hc'', hrefs'', -⟩ := rewire_fwd hc₁ a hap ca hSa
      refine ⟨c'', hc'', ?_⟩
      rw [hrefs'', hbp]
      exact hpref
    · rcases rewire_bwd hc₁ b hbp cB hB with
        ⟨c₀, h₀, -, hdeps⟩ | ⟨-, hbnew, -, hdeps⟩
      · rcases (hdeps a).mp ha with ⟨rfl, hbnew⟩ | ⟨hmem, hg⟩
        · exact ⟨{ c₁ with body := nb }, hAp, hbnew⟩
        · obtain ⟨ca, hSa, hbref⟩ := hL.2 b c₀ h₀ a hmem
          have hap : a ≠ p := by
            rintro rfl
            rw [hc₁] at hSa
            cases hSa
            exact hg ⟨hbref, rfl⟩
          obtain ⟨c'', hc'', hrefs'', -⟩ := rewire_fwd hc₁ a hap ca hSa
          refine ⟨c'', hc'', ?_⟩
          rw [hrefs'']
          exact hbref
      · have := (hdeps a).mp ha
        subst this
        exact ⟨{ c₁ with body := nb }, hAp, hbnew⟩

/-- Link consistency is preserved by the success path of `Cell::Set` on
a detached new cell followed by storing it. -/
theorem linkOK_detachedStore {S₁ : Sheet} {p : Position} {nb : Body}
    (hE : cellAt S₁ p = none ∨ cellAt S₁ p = some emptyCell)
    (hL : LinkOK S₁) (hpnew : p ∉ bodyRefs nb)
    (hslot : (slotAt (addDeps S₁ (bodyRefs nb) p) p).isSome) :
    LinkOK (writeSlot (addDeps S₁ (bodyRefs nb) p) p
      (some ⟨nb, []⟩)) := by
  have hWp : cellAt (writeSlot (addDeps S₁ (bodyRefs nb) p) p
      (some ⟨nb, []⟩)) p = some ⟨nb, []⟩ := by
    rw [cellAt_writeSlot, if_pos ⟨rfl, hslot⟩]
  have hWq : ∀ q, q ≠ p → cellAt (writeSlot (addDeps S₁ (bodyRefs nb) p) p
      (some ⟨nb, []⟩)) q = cellAt (addDeps S₁ (bodyRefs nb) p) q := by
    intro q hq
    rw [cellAt_writeSlot, if_neg (by simp [hq])]
  have hfwd : ∀ q, q ≠ p → ∀ c₀, cellAt S₁ q = some c₀ →
      ∃ c', cellAt (writeSlot (addDeps S₁ (bodyRefs nb) p) p
          (some ⟨nb, []⟩)) q = some c' ∧
        bodyRefs c'.body = bodyRefs c₀.body ∧
        ∀ a, a ∈ c'.dependents ↔
          ((a = p ∧ q ∈ bodyRefs nb) ∨ a ∈ c₀.dependents) := by
    intro q hq c₀ h₀
    rw [hWq q hq, cellAt_addDeps]
    by_cases hnew : q ∈ bodyRefs nb
    · rw [if_pos hnew, h₀]
      refine ⟨insDepStep p c₀, rfl, rfl, ?_⟩
      intro a
      rw [mem_insDepStep_iff]
      constructor
      · rintro (rfl | hmem)
        · exact Or.inl ⟨rfl, hnew⟩
        · exact Or.inr hmem
      · rintro (⟨rfl, -⟩ | hmem)
        · exact Or.inl rfl
        · exact Or.inr hmem
    · rw [if_neg hnew, h₀]
      refine ⟨c₀, rfl, rfl, ?_⟩
      intro a
      constructor
      · intro hmem
        exact Or.inr hmem
      · rintro (⟨-, hc⟩ | hmem)
        · exact absurd hc hnew
        · exact hmem
  have hbwd : ∀ q, q ≠ p → ∀ c', cellAt (writeSlot (addDeps S₁ (bodyRefs nb) p)
      p (some ⟨nb, []⟩)) q = some c' →
      (∃ c₀, cellAt S₁ q = some c₀ ∧ bodyRefs c'.body = bodyRefs c₀.body ∧
        ∀ a, a ∈ c'.dependents ↔
          ((a = p ∧ q ∈ bodyRefs nb) ∨ a ∈ c₀.dependents)) ∨
      (cellAt S₁ q = none ∧ q ∈ bodyRefs nb ∧ bodyRefs c'.body = [] ∧
        ∀ a, a ∈ c'.dependents ↔ a = p) := by
    intro q hq c' h'
    cases h₀ : cellAt S₁ q with
    | some c₀ =>
      left
      obtain ⟨c'', hc'', hrefs, hdeps⟩ := hfwd q hq c₀ h₀
      rw [h'] at hc''
      cases hc''
      exact ⟨c₀, rfl, hrefs, hdeps⟩
    | none =>
      right
      rw [hWq q hq, cellAt_addDeps, h₀] at h'
      split at h'
      next hnew =>
        cases h'
        refine ⟨rfl, hnew, rfl, ?_⟩
        intro a
        simp [insDepStep, emptyCell]
      next => exact Option.noConfusion h'
  constructor
  · intro a cA hA b hb
    by_cases hap : a = p
    · rw [hap, hWp] at hA
      cases hA
      have hbnew : b ∈ bodyRefs nb := hb
      have hbp : b ≠ p := fun h => hpnew (h ▸ hbnew)
      cases hSb : cellAt S₁ b with
      | some c₀ =>
        obtain ⟨c', hc', -, hdeps⟩ := hfwd b hbp c₀ hSb
        exact ⟨c', hc', (hdeps a).mpr (Or.inl ⟨hap, hbnew⟩)⟩
      | none =>
        refine ⟨insDepStep p emptyCell, ?_, ?_⟩
        · rw [hWq b hbp, cellAt_addDeps, if_pos hbnew, hSb]
          rfl
        · rw [mem_insDepStep_iff]
          exact Or.inl hap
    · rcases hbwd a hap cA hA with ⟨c₀, h₀, hrefs, -⟩ | ⟨-, -, hrefs, -⟩
      · rw [hrefs] at hb
        obtain ⟨cb, hSb, hdep⟩ := hL.1 a c₀ h₀ b hb
        have hbp : b ≠ p := by
          rintro rfl
          rcases hE with hE | hE
          · rw [hE] at hSb
            exact Option.noConfusion hSb
          · rw [hE] at hSb
            cases hSb
            simp [emptyCell] at hdep
        obtain ⟨c'', hc'', -, hdeps''⟩ := hfwd b hbp cb hSb
        exact ⟨c'', hc'', (hdeps'' a).mpr (Or.inr hdep)⟩
      · rw [hrefs] at hb
        cases hb
  · intro b cB hB a ha
    by_cases hbp : b = p
    · rw [hbp, hWp] at hB
      cases hB
      simp [emptyCell] at ha
    · rcases hbwd b hbp cB hB with ⟨c₀, h₀, -, hdeps⟩ | ⟨-, hbnew, -, hdeps⟩
      · rcases (hdeps a).mp ha with ⟨rfl, hbnew⟩ | hmem
        · exact ⟨⟨nb, []⟩, hWp, hbnew⟩
        · obtain ⟨ca, hSa, hbref⟩ := hL.2 b c₀ h₀ a hmem
          have hap : a ≠ p := by
            rintro rfl
            rcases hE with hEq | hEq
            · rw [hEq] at hSa
              exact Option.noConfusion hSa
            · rw [hEq] at hSa
              cases hSa
              simp [emptyCell, bodyRefs] at hbref
          obtain ⟨c'', hc'', hrefs'', -⟩ := hfwd a hap ca hSa
          refine ⟨c'', hc'', ?_⟩
          rw [hrefs'']
          exact hbref
      · have := (hdeps a).mp ha
        subst this
        exact ⟨⟨nb, []⟩, hWp, hbnew⟩

/-- An accepted `SetCell` preserves the mutual consistency of reference
lists and dependents sets. -/
theorem setCell_ok_linkOK {fuel : Nat} {S S' : Sheet} {p : Position}
    {t : String} (hacy : Acyclic S) (hL : LinkOK S)
    (h : SetCell fuel S p t = SetOut.ok S') : LinkOK S' := by
  have hacy₀ : Acyclic (grow S p) := acyclic_grow p hacy
  have hL₀ : LinkOK (grow S p) := linkOK_grow p hL
  simp only [SetCell] at h
  split at h
  · exact absurd h (by simp)
  split at h
  next c hc =>
    split at h
    next =>
      cases h
      exact hL₀
    next =>
      split at h
      next heq => exact absurd h (by simp)
      next S₁ heq => exact absurd h (by simp)
      next S₁ heq =>
        cases h
        obtain ⟨hev, hsound⟩ := checkStep_false heq
        have hL₁ : LinkOK S₁ := linkOK_evolves hev hL₀
        have hacy₁ : Acyclic S₁ := acyclic_of_evolves hev hacy₀
        have hc₁ : cellAt S₁ p = some c := evolves_cellAt_some hev hc
        have hpnew : p ∉ bodyRefs (parseBody t) := fun hmem =>
          hsound p hmem Relation.ReflTransGen.refl
        have hpold : p ∉ bodyRefs c.body := fun hmem =>
          hacy₁ p (Relation.TransGen.single ⟨c, hc₁, hmem⟩)
        refine linkOK_invalDeps _ ?_
        have hgoal := linkOK_editRewire hc₁ hL₁ hpold hpnew
        simpa only [hc₁, Option.getD_some] using hgoal
  next hc =>
    split at h
    next heq => exact absurd h (by simp)
    next S₁ heq => exact absurd h (by simp)
    next S₁ heq =>
      cases h
      obtain ⟨hev, hsound⟩ := checkStep_false heq
      have hL₁ : LinkOK S₁ := linkOK_evolves hev hL₀
      have hpnew : p ∉ bodyRefs (parseBody t) := fun hmem =>
        hsound p hmem Relation.ReflTransGen.refl
      have hE : cellAt S₁ p = none ∨ cellAt S₁ p = some emptyCell := by
        rcases hev.1 p with h' | ⟨-, he⟩
        · rw [h', hc]
          exact Or.inl rfl
        · exact Or.inr he
      refine linkOK_detachedStore hE hL₁ hpnew ?_
      refine slotSome_addDeps _ _ S₁ p ?_
      exact hev.2 p (gridSlot_grow_self S.grid p)

/-! ### Invariants of all reachable sheets -/

theorem reach_acyclic {S : Sheet} (h : Reach S) : Acyclic S := by
  induction h with
  | init =>
    intro p hp
    rcases Relation.TransGen.head'_iff.mp hp with ⟨y, hpy, -⟩
    rcases hpy with ⟨c, hc, -⟩
    simp [cellAt, slotAt, gridGet] at hc
  | set hS hstep ih => exact setCell_ok_acyclic ih hstep
  | setCyc hS hstep ih =>
    exact acyclic_of_evolves (setCell_circ_evolves hstep) (acyclic_grow _ ih)
  | clear hS hstep ih => exact clearCell_ok_acyclic ih hstep

theorem reachSet_reach {S : Sheet} (h : ReachSet S) : Reach S := by
  induction h with
  | init => exact Reach.init
  | set hS hstep ih => exact Reach.set ih hstep
  | setCyc hS hstep ih => exact Reach.setCyc ih hstep

theorem reachSet_linkOK {S : Sheet} (h : ReachSet S) : LinkOK S := by
  induction h with
  | init =>
    constructor
    · intro a c hc
      simp [cellAt, slotAt, gridGet] at hc
    · intro b c hc
      simp [cellAt, slotAt, gridGet] at hc
  | set hS hstep ih =>
    exact setCell_ok_linkOK (reach_acyclic (reachSet_reach hS)) ih hstep
  | setCyc hS hstep ih =>
    exact linkOK_evolves (setCell_circ_evolves hstep) (linkOK_grow _ ih)

/-! ### The printable rectangle is blind to empty-text cells -/

theorem lastShownCol_replicate_none (k : Nat) :
    lastShownCol (List.replicate k (none : Option Cell)) = none := by
  induction k with
  | zero => rfl
  | succ k ih => simp [List.replicate, lastShownCol, ih, slotShown]

theorem lastShownCol_append_replicate_none (row : List (Option Cell))
    (k : Nat) :
    lastShownCol (row ++ List.replicate k none) = lastShownCol row := by
  induction row with
  | nil => simpa using lastShownCol_replicate_none k
  | cons o rest ih => simp [lastShownCol, ih]

theorem psAux_append (g1 g2 : List (List (Option Cell))) (i : Nat)
    (acc : Nat × Nat) :
    psAux (g1 ++ g2) i acc = psAux g2 (i + g1.length) (psAux g1 i acc) := by
  induction g1 generalizing i acc with
  | nil => simp [psAux]
  | cons r rs ih =>
    obtain ⟨mr, mc⟩ := acc
    simp only [List.cons_append, psAux]
    rw [show rs.append g2 = rs ++ g2 from rfl, ih, List.length_cons]
    have h : i + 1 + rs.length = i + (rs.length + 1) := by omega
    rw [h]

theorem psAux_replicate_nil (k : Nat) (i : Nat) (acc : Nat × Nat) :
    psAux (List.replicate k []) i acc = acc := by
  induction k generalizing i with
  | zero => rfl
  | succ k ih =>
    obtain ⟨mr, mc⟩ := acc
    simp [List.replicate, psAux, lastShownCol, ih]

theorem psAux_listModify (f : List (Option Cell) → List (Option Cell)) :
    ∀ (g : List (List (Option Cell))) (n i : Nat) (acc : Nat × Nat),
      lastShownCol (f (g.getD n [])) = lastShownCol (g.getD n []) →
      psAux (listModify f n g) i acc = psAux g i acc := by
  intro g
  induction g with
  | nil => intro n i acc h; cases n <;> rfl
  | cons r rs ih =>
    intro n i acc h
    cases n with
    | zero =>
      obtain ⟨mr, mc⟩ := acc
      simp only [List.getD_cons_zero] at h
      simp only [listModify, psAux, h]
    | succ n =>
      obtain ⟨mr, mc⟩ := acc
      simp only [List.getD_cons_succ] at h
      simp only [listModify, psAux]
      split <;> exact ih n _ _ h

theorem lastShownCol_listModify_const (v : Option Cell) :
    ∀ (row : List (Option Cell)) (j : Nat),
      slotShown (row.getD j none) = slotShown v →
      lastShownCol (listModify (fun _ => v) j row) = lastShownCol row := by
  intro row
  induction row with
  | nil => intro j h; cases j <;> rfl
  | cons o rest ih =>
    intro j h
    cases j with
    | zero =>
      simp only [List.getD_cons_zero] at h
      simp only [listModify, lastShownCol]
      rw [h]
    | succ j =>
      simp only [List.getD_cons_succ] at h
      simp only [listModify, lastShownCol, ih j h]

theorem getPrintableSize_writeEmpty (S : Sheet) (p : Position)
    (hc : cellAt S p = none) :
    GetPrintableSize (writeSlot (grow S p) p (some emptyCell)) =
      GetPrintableSize S := by
  have hslot : gridGet (growGrid S.grid p) p = some none := by
    have h1 : (gridGet (growGrid S.grid p) p).isSome :=
      gridSlot_grow_self S.grid p
    have h2 : (gridGet (growGrid S.grid p) p).join = none := by
      have := cellAt_grow S p p
      unfold cellAt slotAt grow at this
      rw [this]
      exact hc
    cases h3 : gridGet (growGrid S.grid p) p with
    | none => rw [h3] at h1; cases h1
    | some v =>
      rw [h3] at h2
      cases v with
      | none => rfl
      | some c => cases h2
  have hrow0 : ((growGrid S.grid p).getD p.row []).getD p.col none = none := by
    unfold gridGet at hslot
    cases hg : (growGrid S.grid p)[p.row]? with
    | none => rw [hg] at hslot; cases hslot
    | some row =>
      rw [hg] at hslot
      simp only [Option.some_bind] at hslot
      have hrr : (growGrid S.grid p).getD p.row [] = row := by
        rw [List.getD_eq_getElem?_getD, hg]
        rfl
      rw [hrr, List.getD_eq_getElem?_getD, hslot]
      rfl
  show psAux (writeSlotG (growGrid S.grid p) p (some emptyCell)) 0 (0, 0) =
    psAux S.grid 0 (0, 0)
  unfold writeSlotG
  rw [psAux_listModify]
  · unfold growGrid
    rw [psAux_listModify]
    · unfold padTo
      rw [psAux_append, psAux_replicate_nil]
    · rw [List.getD_eq_getElem?_getD, getElem?_padTo]
      split
      · rw [← List.getD_eq_getElem?_getD]
        exact lastShownCol_append_replicate_none _ _
      · split
        · simp only [Option.getD_some]
          show lastShownCol (padTo [] (p.col + 1) none) = lastShownCol []
          unfold padTo
          simpa using lastShownCol_replicate_none _
        next h2 => exact absurd (Nat.lt_succ_self _) h2
  · unfold growGrid at hrow0 ⊢
    rw [lastShownCol_listModify_const _ _ _ (by rw [hrow0]; rfl)]

end CellLevel

namespace SheetLevel

/-! ### A reachable divergence of `Sheet::InvalidateCell`

The sequence `SetCell(A1, "=B1"); SetCell(A1, "5"); ClearCell(B1);
SetCell(B1, "=A1")` leaves the stale record `A1 ∈ deps(B1)` (the edge
was never removed when A1 stopped referencing B1) next to the fresh
record `B1 ∈ deps(A1)`, a cycle in the `cells_dependencies_` map.  The
next `SetCell(B1, _)` enters `Sheet::InvalidateCell` (sheet.cpp 28,
148-154), which recurses along that cycle forever. -/

/-- The sheet after the four preparatory operations. -/
def divSheet : Sheet :=
  ⟨[[some ⟨Body.text "5" false⟩, some ⟨Body.formula "A1" none⟩]],
   [(⟨0, 1⟩, [⟨0, 0⟩]), (⟨0, 0⟩, [⟨0, 1⟩])]⟩

theorem invalidate_diverges : ∀ fuel : Nat,
    invDepth fuel divSheet ⟨0, 1⟩ = none ∧
    invDepth fuel divSheet ⟨0, 0⟩ = none := by
  intro fuel
  induction fuel with
  | zero => exact ⟨rfl, rfl⟩
  | succ fuel ih =>
    have hA : invalCacheAt divSheet ⟨0, 0⟩ = divSheet := by decide
    have hB : invalCacheAt divSheet ⟨0, 1⟩ = divSheet := by decide
    constructor
    · show invGo (invDepth fuel) divSheet (depsGet divSheet.deps ⟨0, 1⟩) = none
      show invGo (invDepth fuel) divSheet [⟨0, 0⟩] = none
      unfold invGo
      rw [hA, ih.2]
    · show invGo (invDepth fuel) divSheet (depsGet divSheet.deps ⟨0, 0⟩) = none
      show invGo (invDepth fuel) divSheet [⟨0, 1⟩] = none
      unfold invGo
      rw [hB, ih.1]

theorem setCell_divSheet_fuelOut : ∀ fuel : Nat,
    SetCell fuel divSheet ⟨0, 1⟩ "=A1" = SetOut.fuelOut := by
  intro fuel
  have hgrow : grow divSheet ⟨0, 1⟩ = divSheet := by decide
  simp only [SetCell]
  rw [if_neg (by decide), hgrow]
  rw [show cellAt divSheet ⟨0, 1⟩ = some ⟨Body.formula "A1" none⟩ from by decide]
  rw [(invalidate_diverges fuel).1]

end SheetLevel

namespace Claims

open CellLevel

/-! ### Concrete sheets used by the claim instances -/

/-- The cell-level sheet holding `B5 = "=A1"` (A1 materialized empty). -/
def c1Setup : Sheet :=
  ⟨[[some ⟨Body.empty, [⟨4, 1⟩]⟩], [], [], [],
    [none, some ⟨Body.formula "A1" none, []⟩]]⟩

/-- The sheet left behind by the rejected edit `A1 = "=B1+B5"`: B1 has
been materialized by the failed cycle check. -/
def c1After : Sheet :=
  ⟨[[some ⟨Body.empty, [⟨4, 1⟩]⟩, some ⟨Body.empty, []⟩], [], [], [],
    [none, some ⟨Body.formula "A1" none, []⟩]]⟩

/-- After `SetCell(B1, "1")`. -/
def c4U1 : Sheet := ⟨[[none, some ⟨Body.text "1" false, []⟩]]⟩

/-- After `SetCell(B1, "1"); SetCell(A1, "=B1")`. -/
def c4U2 : Sheet :=
  ⟨[[some ⟨Body.formula "B1" none, []⟩, some ⟨Body.text "1" false, [⟨0, 0⟩]⟩]]⟩

/-- After additionally `ClearCell(B1)`: A1 still references B1, but the
slot is gone. -/
def c4U3 : Sheet := ⟨[[some ⟨Body.formula "B1" none, []⟩, none]]⟩

/-- `SetCell(A1, "=B1")` on a fresh sheet in the hashed-dependents
model: B1 materialized empty, recording the dependent A1 under A1's
insertion-time text `"=B1"`. -/
def c4V1 : HashLevel.Sheet :=
  ⟨[[some ⟨Body.formula "B1" none, []⟩,
     some ⟨Body.empty, [(⟨0, 0⟩, "=B1")]⟩]]⟩

/-- After additionally `SetCell(A1, "5")`: the erase of A1 from B1's
dependents probed with A1's new text `"5"` and missed the record stored
under `"=B1"`, which is now stale. -/
def c4V2 : HashLevel.Sheet :=
  ⟨[[some ⟨Body.text "5" false, []⟩,
     some ⟨Body.empty, [(⟨0, 0⟩, "=B1")]⟩]]⟩

/-- After `SetCell(A1, "1")` on a fresh sheet. -/
def c2W : Sheet := ⟨[[some ⟨Body.text "1" false, []⟩]]⟩

/-- Sheet-level intermediate states of the divergence trace. -/
def divS1 : SheetLevel.Sheet :=
  ⟨[[some ⟨Body.formula "B1" none⟩, some ⟨Body.empty⟩]], [(⟨0, 1⟩, [⟨0, 0⟩])]⟩

def divS2 : SheetLevel.Sheet :=
  ⟨[[some ⟨Body.text "5" false⟩, some ⟨Body.empty⟩]], [(⟨0, 1⟩, [⟨0, 0⟩])]⟩

def divS3 : SheetLevel.Sheet :=
  ⟨[[some ⟨Body.text "5" false⟩, none]], [(⟨0, 1⟩, [⟨0, 0⟩])]⟩

/-- 309 nines: an all-digit string whose value 10^309 − 1 exceeds
`DBL_MAX` ≈ 1.7977·10^308, driving `std::stod` into `out_of_range`. -/
def bigDigits : String := String.mk (List.replicate 309 (Char.ofNat 57))

/-! ### C1 — cycle rejection atomicity -/

/-- C1, counterexample: the claim that a `SetCell` rejected with
CircularDependency leaves the set of allocated slots unchanged is false.
With `B5 = "=A1"`, the edit `SetCell(A1, "=B1+B5")` raises
CircularDependency, yet the failed cycle check has materialized the
previously absent B1 (cell.cpp 207-210). -/
theorem c1_counterexample :
    SetCell 9 ⟨[]⟩ ⟨4, 1⟩ "=A1" = SetOut.ok c1Setup ∧
    cellAt c1Setup ⟨0, 1⟩ = none ∧
    SetCell 9 c1Setup ⟨0, 0⟩ "=B1+B5" = SetOut.exc ErrK.circular c1After ∧
    cellAt c1After ⟨0, 1⟩ = some emptyCell := by
  refine ⟨by decide, by decide, by decide, by decide⟩

/-- C1 (amended): if `SetCell(p, t)` raises CircularDependency, then
every previously allocated cell — its body, its text, its reference
list and its dependents set — is untouched (in particular
`GetCell(p).GetText()` is unchanged), and the only possible difference
is that absent cells referenced by the tentative body have been
materialized as fresh empty cells by the cycle check. -/
theorem c1_atomicity_amended (fuel : Nat) (S : Sheet) (p : Position)
    (t : String) (S' : Sheet)
    (h : SetCell fuel S p t = SetOut.exc ErrK.circular S') :
    (∀ q c, cellAt S q = some c → cellAt S' q = some c) ∧
    (∀ q c', cellAt S' q = some c' →
      cellAt S q = some c' ∨ (cellAt S q = none ∧ c' = emptyCell)) := by
  have hev := setCell_circ_evolves h
  constructor
  · intro q c hc
    exact evolves_cellAt_some hev (by rw [cellAt_grow]; exact hc)
  · intro q c' hc'
    rcases hev.1 q with h' | ⟨hn, he⟩
    · rw [h', cellAt_grow] at hc'
      exact Or.inl hc'
    · rw [cellAt_grow] at hn
      rw [he] at hc'
      cases hc'
      exact Or.inr ⟨hn, rfl⟩

/-- C1, witness: the amended statement at the rejected self-reference
`SetCell(A1, "=A1")` on a fresh sheet. -/
theorem c1_witness :
    (∀ q c, cellAt ⟨[]⟩ q = some c → cellAt ⟨[[none]]⟩ q = some c) ∧
    (∀ q c', cellAt (⟨[[none]]⟩ : Sheet) q = some c' →
      cellAt ⟨[]⟩ q = some c' ∨ (cellAt ⟨[]⟩ q = none ∧ c' = emptyCell)) :=
  c1_atomicity_amended 9 ⟨[]⟩ ⟨0, 0⟩ "=A1" ⟨[[none]]⟩ (by decide)

/-! ### C2 — the dependency graph stays a DAG -/

/-- C2: after every completed public operation — an accepted `SetCell`,
a `SetCell` rejected by the cycle check, or a `ClearCell` — the
reference graph is acyclic: an accepted edit never introduces a cycle
because `Cell::Set` rejects any tentative body whose references reach
the edited position. -/
theorem c2_graph_acyclic (S : Sheet) (h : Reach S) : Acyclic S :=
  reach_acyclic h

/-- C2, witness: acyclicity of the sheet reached by `SetCell(A1, "1")`
from a fresh sheet. -/
theorem c2_witness : Acyclic c2W :=
  c2_graph_acyclic c2W
    (Reach.set Reach.init
      (show SetCell 9 ⟨[]⟩ ⟨0, 0⟩ "1" = SetOut.ok c2W from by decide))

/-! ### C3 — formula memoization -/

/-- C3: `Cell::FormulaImpl::GetValue` (cell.cpp 83-97) classifies the
evaluation result exactly as specified — a memoized value is returned
as is, a finite number is returned, a non-finite number becomes
`FormulaError(Arithmetic)`, an executor error is propagated — but no
path assigns `cache_`, so a finite numeric result is *never* memoized:
the cache after the call (second component) is always the cache before
the call, and on the claimed memoization path it stays empty. -/
theorem c3_formula_value_never_memoized :
    (∀ q : ℚ, formulaImplGetValue none (FVal.num (Dbl.fin q)) =
      (CellValue.num (Dbl.fin q), none)) ∧
    (formulaImplGetValue none (FVal.num Dbl.nan) =
      (CellValue.err FECat.Arithmetic, none)) ∧
    (formulaImplGetValue none (FVal.num Dbl.posInf) =
      (CellValue.err FECat.Arithmetic, none)) ∧
    (∀ e, formulaImplGetValue none (FVal.err e) = (CellValue.err e, none)) ∧
    (∀ v r, formulaImplGetValue (some v) r = (v, some v)) := by
  exact ⟨fun q => rfl, rfl, rfl, fun e => rfl, fun v r => rfl⟩

/-! ### C4 — mutual consistency of references and dependents -/

/-- C4, counterexample: the link-consistency invariant does not survive
`ClearCell`.  After `SetCell(B1, "1"); SetCell(A1, "=B1");
ClearCell(B1)` — three completed public operations — A1's body still
references B1 while B1 is no longer allocated. -/
theorem c4_counterexample :
    SetCell 9 ⟨[]⟩ ⟨0, 1⟩ "1" = SetOut.ok c4U1 ∧
    SetCell 9 c4U1 ⟨0, 0⟩ "=B1" = SetOut.ok c4U2 ∧
    ClearCell c4U2 ⟨0, 1⟩ = Except.ok c4U3 ∧
    ¬ LinkOK c4U3 := by
  refine ⟨by decide, by decide, by decide, ?_⟩
  rintro ⟨h1, -⟩
  obtain ⟨c', hc', -⟩ := h1 ⟨0, 0⟩ ⟨Body.formula "B1" none, []⟩ (by decide)
    ⟨0, 1⟩ (by decide)
  rw [show cellAt c4U3 ⟨0, 1⟩ = none from by decide] at hc'
  exact Option.noConfusion hc'

/-- C4: the invariant also fails on SetCell-only histories, because the
erase of cell.cpp 160 misses.  `dependent_cells_` hashes elements by
their current `GetText()` (cell.h 26-37) and `Cell::Set` swaps the body
*before* the old-references erase loop (cell.cpp 154-161), so the erase
probes the bucket of the new text while the record sits in the bucket
of the old text.  In the hashed-dependents model: after `SetCell(A1,
"=B1"); SetCell(A1, "5")` — two accepted edits from the empty sheet —
B1's dependents set still records A1, yet A1's body references
nothing. -/
theorem c4_stale_dependent :
    HashLevel.SetCell 9 ⟨[]⟩ ⟨0, 0⟩ "=B1" = HashLevel.SetOut.ok c4V1 ∧
    HashLevel.SetCell 9 c4V1 ⟨0, 0⟩ "5" = HashLevel.SetOut.ok c4V2 ∧
    ((HashLevel.cellAt c4V2 ⟨0, 1⟩).getD HashLevel.emptyCell).dependents.map
      Prod.fst = [⟨0, 0⟩] ∧
    bodyRefs ((HashLevel.cellAt c4V2 ⟨0, 0⟩).getD HashLevel.emptyCell).body
      = [] := by
  exact ⟨by decide, by decide, by decide, by decide⟩

/-! ### C5 — ClearCell semantics -/

/-- C5, counterexample: `Sheet::ClearCell` (sheet.cpp 80-87) does not
keep the slot of a cell that has dependents.  B1 has the dependent A1,
yet `ClearCell(B1)` releases the slot and a subsequent `GetCell(B1)` is
absent. -/
theorem c5_counterexample :
    SetCell 9 ⟨[]⟩ ⟨0, 1⟩ "1" = SetOut.ok c4U1 ∧
    SetCell 9 c4U1 ⟨0, 0⟩ "=B1" = SetOut.ok c4U2 ∧
    ((cellAt c4U2 ⟨0, 1⟩).getD emptyCell).dependents = [⟨0, 0⟩] ∧
    ClearCell c4U2 ⟨0, 1⟩ = Except.ok c4U3 ∧
    cellAt c4U3 ⟨0, 1⟩ = none := by
  exact ⟨by decide, by decide, by decide, by decide, by decide⟩

/-- C5 (amended): `ClearCell(pos)` rejects an invalid `pos` with
InvalidPosition and, on a valid one, succeeds and unconditionally
releases the slot when it is occupied — a subsequent `GetCell(pos)` is
absent regardless of dependents, every other position is untouched, and
no dependent-cache invalidation is performed. -/
theorem c5_clear_releases_amended (S : Sheet) (p : Position) :
    (¬ p.IsValid → ClearCell S p = Except.error ErrK.invalidPos) ∧
    (p.IsValid → ∃ S', ClearCell S p = Except.ok S' ∧ cellAt S' p = none ∧
      ∀ q, q ≠ p → cellAt S' q = cellAt S q) := by
  constructor
  · intro h
    unfold ClearCell
    rw [if_pos h]
  · intro h
    unfold ClearCell
    rw [if_neg (not_not_intro h)]
    by_cases hs : (slotAt S p).isSome
    · rw [if_pos hs]
      refine ⟨writeSlot S p none, rfl, ?_, ?_⟩
      · rw [cellAt_writeSlot, if_pos ⟨rfl, hs⟩]
      · intro q hq
        rw [cellAt_writeSlot, if_neg (by simp [hq])]
    · rw [if_neg hs]
      refine ⟨S, rfl, ?_, fun q _ => rfl⟩
      unfold cellAt
      cases hslot : slotAt S p with
      | none => rfl
      | some v => rw [hslot] at hs; simp at hs

/-- C5, witness: the amended statement at the out-of-range position
⟨0, 16384⟩ and at `ClearCell(B1)` on the sheet holding `B1 = "1"` with
dependent A1. -/
theorem c5_witness :
    ClearCell c4U2 ⟨0, 16384⟩ = Except.error ErrK.invalidPos ∧
    ∃ S', ClearCell c4U2 ⟨0, 1⟩ = Except.ok S' ∧
      cellAt S' ⟨0, 1⟩ = none ∧
      ∀ q, q ≠ ⟨0, 1⟩ → cellAt S' q = cellAt c4U2 q :=
  ⟨(c5_clear_releases_amended c4U2 ⟨0, 16384⟩).1 (by decide),
   (c5_clear_releases_amended c4U2 ⟨0, 1⟩).2 (by decide)⟩

/-! ### C6 — idempotence of SetCell -/

/-- C6: the claim fails on the code, which moreover contradicts the
spec's explicit `GetText() == text` no-op short-circuit (absent from
sheet.cpp 12-52).  The trace `SetCell(A1, "=B1"); SetCell(A1, "5");
ClearCell(B1); SetCell(B1, "=A1"); SetCell(B1, "=A1")` completes its
first four operations, but leaves a cycle in the
`cells_dependencies_` map (B1 ↦ A1 stale, A1 ↦ B1 fresh), so the second
of the two identical `SetCell(B1, "=A1")` calls makes
`Sheet::InvalidateCell` (sheet.cpp 148-154) recurse forever: for every
fuel bound the model reports exhaustion, modelling the source's
unbounded recursion.  `SetCell(p, t); SetCell(p, t)` is therefore not
observationally equal to a single `SetCell(p, t)`. -/
theorem c6_identical_set_diverges :
    SheetLevel.SetCell 9 ⟨[], []⟩ ⟨0, 0⟩ "=B1" = SheetLevel.SetOut.ok divS1 ∧
    SheetLevel.SetCell 9 divS1 ⟨0, 0⟩ "5" = SheetLevel.SetOut.ok divS2 ∧
    SheetLevel.ClearCell divS2 ⟨0, 1⟩ = Except.ok divS3 ∧
    SheetLevel.SetCell 9 divS3 ⟨0, 1⟩ "=A1" =
      SheetLevel.SetOut.ok SheetLevel.divSheet ∧
    ∀ fuel : Nat, SheetLevel.SetCell fuel SheetLevel.divSheet ⟨0, 1⟩ "=A1" =
      SheetLevel.SetOut.fuelOut := by
  exact ⟨by decide, by decide, by decide, by decide,
    SheetLevel.setCell_divSheet_fuelOut⟩

/-! ### C7 — the evaluation lookup callback -/

set_option maxRecDepth 10000 in
/-- C7, counterexample: the claim that a referenced string value with
more than one `.` yields `FormulaError(Value)` is false: every
character of `"1.2.3"` passes the `isdigit || '.'` filter, and
`std::stod` then parses the prefix `1.2`, so the callback yields the
number 6/5. -/
theorem c7_counterexample :
    evaluateLookup (some (CellValue.str "1.2.3")) =
      Except.ok (Dbl.fin (6 / 5)) ∧
    evaluateLookup (some (CellValue.str "1.2.3")) ≠
      Except.error FECat.Value := by
  have h1 : evaluateLookup (some (CellValue.str "1.2.3")) =
      if ((1 : ℚ) + (2 : ℚ) / (10 : ℚ) ^ (1 : Nat)) ≤ maxDouble
      then Except.ok (Dbl.fin ((1 : ℚ) + (2 : ℚ) / (10 : ℚ) ^ (1 : Nat)))
      else Except.error FECat.Value := rfl
  have h2 : ((1 : ℚ) + (2 : ℚ) / (10 : ℚ) ^ (1 : Nat)) = 6 / 5 := by norm_num
  have h3 : ((6 : ℚ) / 5) ≤ maxDouble := by
    unfold maxDouble
    have hn : ((2 : ℕ) : ℚ) ≤ (((2 ^ 53 - 1) * 2 ^ 971 : ℕ) : ℚ) :=
      Nat.cast_le.mpr (by decide)
    calc (6 : ℚ) / 5 ≤ ((2 : ℕ) : ℚ) := by norm_num
    _ ≤ _ := hn
  have h : evaluateLookup (some (CellValue.str "1.2.3")) =
      Except.ok (Dbl.fin (6 / 5)) := by
    rw [h1, h2, if_pos h3]
  exact ⟨h, by rw [h]; simp⟩

/-- C7 (amended): the lookup callback yields 0.0 for an absent cell,
the number itself for a numeric value, and propagates a stored
`FormulaError`; for a string whose characters are all digits or dots —
several dots are accepted — `stod` parses the leading numeric prefix
(digits, at most one dot inside), and the callback yields that number
when it lies within `double` range, and `FormulaError(Value)` when no
numeric prefix exists (`std::invalid_argument`) or the parsed value
falls out of `double` range (`std::out_of_range`), both caught by
`catch (...)`; a string with any other character yields
`FormulaError(Value)` directly. -/
theorem c7_lookup_amended :
    (evaluateLookup none = Except.ok (Dbl.fin 0)) ∧
    (∀ d, evaluateLookup (some (CellValue.num d)) = Except.ok d) ∧
    (∀ e, evaluateLookup (some (CellValue.err e)) = Except.error e) ∧
    (∀ s q, s.toList.all isDigitDot = true → stodDigitDot s = some q →
      q ≤ maxDouble →
      evaluateLookup (some (CellValue.str s)) = Except.ok (Dbl.fin q)) ∧
    (∀ s q, s.toList.all isDigitDot = true → stodDigitDot s = some q →
      maxDouble < q →
      evaluateLookup (some (CellValue.str s)) = Except.error FECat.Value) ∧
    (∀ s, s.toList.all isDigitDot = true → stodDigitDot s = none →
      evaluateLookup (some (CellValue.str s)) = Except.error FECat.Value) ∧
    (∀ s, ¬ s.toList.all isDigitDot = true →
      evaluateLookup (some (CellValue.str s)) = Except.error FECat.Value) := by
  refine ⟨rfl, fun d => rfl, fun e => rfl, ?_, ?_, ?_, ?_⟩
  · intro s q hall hstod hle
    simp only [evaluateLookup]
    rw [if_pos hall, hstod]
    show (if q ≤ maxDouble then Except.ok (Dbl.fin q)
      else Except.error FECat.Value) = Except.ok (Dbl.fin q)
    rw [if_pos hle]
  · intro s q hall hstod hgt
    simp only [evaluateLookup]
    rw [if_pos hall, hstod]
    show (if q ≤ maxDouble then Except.ok (Dbl.fin q)
      else Except.error FECat.Value) = Except.error FECat.Value
    rw [if_neg (not_le_of_lt hgt)]
  · intro s hall hstod
    simp only [evaluateLookup]
    rw [if_pos hall, hstod]
  · intro s hall
    simp only [evaluateLookup]
    rw [if_neg hall]

set_option maxRecDepth 10000 in
/-- C7, witness: the amended statement at the parsed string `"25"`, the
309-nines string whose value exceeds `double` range, the dot-only
string `"."` and the alphabetic string `"x1"`. -/
theorem c7_witness :
    evaluateLookup (some (CellValue.str "25")) = Except.ok (Dbl.fin 25) ∧
    evaluateLookup (some (CellValue.str bigDigits)) =
      Except.error FECat.Value ∧
    evaluateLookup (some (CellValue.str ".")) = Except.error FECat.Value ∧
    evaluateLookup (some (CellValue.str "x1")) = Except.error FECat.Value :=
  ⟨c7_lookup_amended.2.2.2.1 "25" 25 (by decide) (by decide) (by decide),
   c7_lookup_amended.2.2.2.2.1 bigDigits (((10 : ℕ) ^ 309 - 1 : ℕ) : ℚ)
     (by decide) (by decide) (by decide),
   c7_lookup_amended.2.2.2.2.2.1 "." (by decide) (by decide),
   c7_lookup_amended.2.2.2.2.2.2 "x1" (by decide)⟩

/-! ### C8 — read-only GetCell -/

/-- C8: for every sheet and every valid position — inside or outside
the allocated extent — the const `Sheet::GetCell` succeeds, returns the
cell handle (absent exactly when the slot is unallocated or holds no
cell), and returns the sheet itself unchanged: it never materializes a
cell and never alters the extent, any body, or any dependency link. -/
theorem c8_getcell_pure (S : Sheet) (p : Position) (h : p.IsValid) :
    GetCell S p = Except.ok (cellAt S p, S) ∧
    (cellAt S p = none ↔ slotAt S p = none ∨ slotAt S p = some none) := by
  constructor
  · unfold GetCell
    rw [if_neg (not_not_intro h)]
  · unfold cellAt
    cases hs : slotAt S p with
    | none => simp
    | some v => cases v <;> simp

/-- C8, witness: the statement at position B1 of the sheet holding only
`B1 = "1"` (a one-row extent with an unallocated A1 slot). -/
theorem c8_witness :
    GetCell c4U1 ⟨0, 1⟩ = Except.ok (cellAt c4U1 ⟨0, 1⟩, c4U1) ∧
    (cellAt c4U1 ⟨0, 1⟩ = none ↔
      slotAt c4U1 ⟨0, 1⟩ = none ∨ slotAt c4U1 ⟨0, 1⟩ = some none) :=
  c8_getcell_pure c4U1 ⟨0, 1⟩ (by decide)

/-! ### C9 — writing empty text materializes an Empty cell -/

/-- C9: on any previously absent valid position, `SetCell(p, "")`
succeeds for every fuel bound (no cycle check runs), stores a present
cell whose body is `EmptyImpl` — so `GetText()` is the empty string and
`GetValue()` is the number 0 — and the printable size of the sheet is
unchanged. -/
theorem c9_empty_text_materializes (fuel : Nat) (S : Sheet) (p : Position)
    (hv : p.IsValid) (hc : cellAt S p = none) :
    SetCell fuel S p "" =
      SetOut.ok (writeSlot (grow S p) p (some emptyCell)) ∧
    cellAt (writeSlot (grow S p) p (some emptyCell)) p = some emptyCell ∧
    bodyText emptyCell.body = "" ∧
    bodyPlainValue emptyCell.body = some (CellValue.num (Dbl.fin 0)) ∧
    GetPrintableSize (writeSlot (grow S p) p (some emptyCell)) =
      GetPrintableSize S := by
  refine ⟨?_, ?_, rfl, rfl, getPrintableSize_writeEmpty S p hc⟩
  · simp only [SetCell]
    rw [if_neg (not_not_intro hv)]
    rw [show cellAt (grow S p) p = none from by rw [cellAt_grow]; exact hc]
    rfl
  · rw [cellAt_writeSlot, if_pos ⟨rfl, gridSlot_grow_self S.grid p⟩]

/-- C9, witness: the statement at the absent position C3 of the sheet
holding `B1 = "1"` and `A1 = "=B1"`. -/
theorem c9_witness :
    SetCell 7 c4U2 ⟨2, 2⟩ "" =
      SetOut.ok (writeSlot (grow c4U2 ⟨2, 2⟩) ⟨2, 2⟩ (some emptyCell)) ∧
    cellAt (writeSlot (grow c4U2 ⟨2, 2⟩) ⟨2, 2⟩ (some emptyCell)) ⟨2, 2⟩ =
      some emptyCell ∧
    bodyText emptyCell.body = "" ∧
    bodyPlainValue emptyCell.body = some (CellValue.num (Dbl.fin 0)) ∧
    GetPrintableSize (writeSlot (grow c4U2 ⟨2, 2⟩) ⟨2, 2⟩ (some emptyCell)) =
      GetPrintableSize c4U2 :=
  c9_empty_text_materializes 7 c4U2 ⟨2, 2⟩ (by decide) (by decide)

/-! ### C10 — TextImpl never receives an empty string -/

/-- C10: the body constructor of `Cell::Set` (cell.cpp 130-146) maps
empty text to `EmptyImpl` and builds a `TextImpl` only from the
original non-empty text, so the `value_[0]` read in the `TextImpl`
constructor (cell.cpp 49) is always within bounds. -/
theorem c10_text_body_nonempty (t s : String) (b : Bool)
    (h : parseBody t = Body.text s b) : s = t ∧ s ≠ "" := by
  unfold parseBody at h
  by_cases h0 : t = ""
  · rw [if_pos h0] at h
    exact Body.noConfusion h
  · rw [if_neg h0] at h
    by_cases h1 : t.front ≠ formulaSign ∨ t.length = 1
    · rw [if_pos h1] at h
      unfold mkTextImpl at h
      injection h with hs hb
      exact ⟨hs.symm, hs ▸ h0⟩
    · rw [if_neg h1] at h
      exact Body.noConfusion h

/-- C10, witness: the statement at the stored text `"abc"`. -/
theorem c10_witness : ("abc" : String) = "abc" ∧ ("abc" : String) ≠ "" :=
  c10_text_body_nonempty "abc" "abc" false (by decide)

end Claims

end Spreadsheet
